import Mathlib

/-!
Verification of the NodeGraphQt node-graph editor core against its
natural-language specification.

The Lean definitions below are a shallow embedding of the Python sources:

* `src/NodeGraphQt/ports/base_model.py` (class `Port`: `connect_to`,
  `disconnect_from`, `get_connected_ports`, `accepted_port_types`,
  `rejected_port_types`),
* `src/NodeGraphQt/base/commands.py` (`PortConnectedCmd`,
  `PortDisconnectedCmd` and their `undo` counterparts),
* `src/NodeGraphQt/base/graph.py` (`_serialize`, `_deserialize`,
  `_update_node_rank`, `_compute_node_rank`),
* `src/NodeGraphQt/nodes/base_model.py` (`NodeModel.properties`,
  `NodeModel.set_property`),
* `src/NodeGraphQt/base/factory.py` (`NodeFactory.register_node`,
  `NodeFactory.create_node_instance`).

Python dicts are embedded as insertion-ordered association lists,
Python lists as Lean lists building in the same order, and exceptions as
an `Option String` error component threaded next to the state.  Mutation
of shared objects is embedded as sequential state updates keyed by the
identity of the mutated object, which reproduces Python aliasing
(updating the same key twice composes the two mutations).
-/

set_option autoImplicit false

namespace NGQt

/-- Direction of a port (`constants.PortTypeEnum`, values "in"/"out"). -/
inductive PortDir where
  | inp
  | out
deriving DecidableEq

/-- The opposite port direction. -/
def PortDir.opposite : PortDir → PortDir
  | .inp => .out
  | .out => .inp

/-- Identity of a port object: the owning node id, the direction
(`Port.dtype`) and the port name (`Port.name`).  The Python code reaches a
port either as an object reference or by resolving `(node id, direction,
name)` through `NodeGraph.get_node_by_id` plus `BaseNode.inputs()` /
`BaseNode.outputs()`; both designate the same port, so this triple is a
faithful identity for the embedding.  `Port.view.name` is assigned from
`Port.name` when the port is built (`BaseNode.add_input` /
`BaseNode.add_output`), so the view name used by the commands equals the
model name. -/
structure PortKey where
  nodeId : String
  dir : PortDir
  name : String
deriving DecidableEq

/-- Association-list lookup: Python `dict.get(k)` (first binding wins;
the embedding keeps keys unique, matching dict keys). -/
def alGet {κ α : Type} [BEq κ] (m : List (κ × α)) (k : κ) : Option α :=
  match m with
  | [] => none
  | e :: rest => if e.1 == k then some e.2 else alGet rest k

/-- Association-list store: Python `d[k] = v` (replaces the binding in
place, or appends a new binding preserving dict insertion order). -/
def alSet {κ α : Type} [BEq κ] (m : List (κ × α)) (k : κ) (v : α) : List (κ × α) :=
  match m with
  | [] => [(k, v)]
  | e :: rest => if e.1 == k then (k, v) :: rest else e :: alSet rest k v

/-- Association-list in-place update, defaulting to `dflt` when the key is
absent: Python `d[k] = f(d[k])` on a `defaultdict` whose factory yields
`dflt`. -/
def alUpdate {κ α : Type} [BEq κ] (m : List (κ × α)) (k : κ) (f : α → α) (dflt : α) :
    List (κ × α) :=
  match m with
  | [] => [(k, f dflt)]
  | e :: rest => if e.1 == k then (e.1, f e.2) :: rest else e :: alUpdate rest k f dflt

/-- Association-list deletion: Python `del d[k]`. -/
def alErase {κ α : Type} [BEq κ] (m : List (κ × α)) (k : κ) : List (κ × α) :=
  match m with
  | [] => []
  | e :: rest => if e.1 == k then rest else e :: alErase rest k

/-- Python truthiness of a dict: a dict is truthy iff it is non-empty.
Used for `connected_ports` (a `defaultdict(list)`) in
`NodeGraph._deserialize`: `not in_port.connected_ports`. -/
def pyDictTruthy {κ α : Type} (m : List (κ × α)) : Bool :=
  !m.isEmpty

/-- Python `port_names is []` (commands.py, `PortConnectedCmd.undo` and
`PortDisconnectedCmd.redo`): identity comparison between an existing value
and a freshly allocated empty-list literal.  A fresh allocation is never
the same object as any pre-existing value, so this test is `False` for
every argument and the `del` branch it guards is unreachable. -/
def pyIsFreshEmptyList (_pn : Option (List String)) : Bool :=
  false

/-- Mutable state of one `Port` object (ports/base_model.py):
`multi_connection`, `locked`, and `connected_ports` — a
`defaultdict(list)` mapping a peer node id to the list of peer port names,
in insertion order. -/
structure PortState where
  multi : Bool
  locked : Bool
  conns : List (String × List String)
deriving DecidableEq

/-- The state a `Port` object is constructed with (`multi_connection` and
`locked` are overwritten right after construction by `add_input` /
`add_output`; `connected_ports` starts as an empty defaultdict). -/
def defaultPortState : PortState :=
  { multi := false, locked := false, conns := [] }

/-- Nested connection-constraint table
(`NodeGraphModel.accept_connection_types` /
`reject_connection_types`): node type → port direction → port name →
peer node type → peer port direction → set of peer port names (Python
stores the innermost level as a set; the embedding uses a list, membership
being all the code ever asks of it). -/
abbrev PeerSpec := List (String × List (PortDir × List String))

/-- Outer three levels of the constraint tables, keyed by the port that
owns the constraint. -/
abbrev ConnTypeTable := List (String × List (PortDir × List (String × PeerSpec)))

/-- Graph-level state touched by the connection engine: the `acyclic`
flag of `NodeGraphModel`, the node type identifier of each node
(`node.identifier`, the type string the factory registers the node
under — its accessor lives outside the extracted sources but its value is
the node type string, see its uses at base/graph.py:1110 and 1176), the
two constraint tables, and the state of every port keyed by `PortKey`. -/
structure GraphState where
  acyclic : Bool
  nodeTypes : List (String × String)
  acceptTab : ConnTypeTable
  rejectTab : ConnTypeTable
  ports : List (PortKey × PortState)

/-- Fetch a port's state.  All operations in the claims are invoked on
ports that exist in the graph; absent keys yield the freshly-constructed
state. -/
def lookupPort (g : GraphState) (k : PortKey) : PortState :=
  (alGet g.ports k).getD defaultPortState

/-- Apply a mutation to the port object identified by `k`. -/
def updatePort (g : GraphState) (k : PortKey) (f : PortState → PortState) : GraphState :=
  { g with ports := alUpdate g.ports k f defaultPortState }

/-- `node.identifier`: the node type identifier string of a node. -/
def nodeTypeOf (g : GraphState) (nid : String) : String :=
  (alGet g.nodeTypes nid).getD ""

/-- `Port.get_connected_ports` (ports/base_model.py): flatten
`connected_ports` into port references; a peer of an input port is looked
up among the peer node's outputs and vice versa, so each peer key carries
the opposite direction. -/
def connectedPeerKeys (k : PortKey) (ps : PortState) : List PortKey :=
  ps.conns.flatMap (fun e => e.2.map (fun nm => PortKey.mk e.1 k.dir.opposite nm))

/-- One side of `PortConnectedCmd.redo`:
`model.connected_ports[peer_node_id].append(peer_port_name)` on a
`defaultdict(list)`. -/
def appendConn (ps : PortState) (nid nm : String) : PortState :=
  { ps with conns := alUpdate ps.conns nid (fun l => l ++ [nm]) [] }

/-- One side of `PortDisconnectedCmd.redo` (identical code in
`PortConnectedCmd.undo`):

* `port_names = model.connected_ports.get(peer_node_id)`;
* `if port_names is []: del model.connected_ports[peer_node_id]` — the
  guard is `pyIsFreshEmptyList`, false for every value, so the deletion
  never runs and node-id keys survive with empty lists;
* `if port_names and name in port_names: port_names.remove(name)` —
  remove the first occurrence when the fetched list is truthy (non-`None`
  and non-empty) and contains the name. -/
def removeConnSide (ps : PortState) (nid nm : String) : PortState :=
  let pn := alGet ps.conns nid
  let ps1 := if pyIsFreshEmptyList pn then { ps with conns := alErase ps.conns nid } else ps
  match pn with
  | none => ps1
  | some l =>
      if !l.isEmpty && nm ∈ l then
        { ps1 with conns := alSet ps1.conns nid (l.erase nm) }
      else ps1

/-- `PortConnectedCmd.redo` (commands.py:340): append the peer entry on
both ports in sequence (the second update sees the first, reproducing
Python's aliasing when both arguments are the same object).  The view
bookkeeping and signal emission touch no model state. -/
def portConnectedCmdRedo (g : GraphState) (src trg : PortKey) : GraphState :=
  let g1 := updatePort g src (fun ps => appendConn ps trg.nodeId trg.name)
  updatePort g1 trg (fun ps => appendConn ps src.nodeId src.name)

/-- `PortDisconnectedCmd.redo` (commands.py:398): remove the peer entry on
both ports in sequence. -/
def portDisconnectedCmdRedo (g : GraphState) (src trg : PortKey) : GraphState :=
  let g1 := updatePort g src (fun ps => removeConnSide ps trg.nodeId trg.name)
  updatePort g1 trg (fun ps => removeConnSide ps src.nodeId src.name)

/-- `PortConnectedCmd.undo` (commands.py:310): its body is the same
peer-entry removal as `PortDisconnectedCmd.redo`, written out in the
source with the same statements. -/
def portConnectedCmdUndo (g : GraphState) (src trg : PortKey) : GraphState :=
  let g1 := updatePort g src (fun ps => removeConnSide ps trg.nodeId trg.name)
  updatePort g1 trg (fun ps => removeConnSide ps src.nodeId src.name)

/-- `PortDisconnectedCmd.undo` (commands.py:378): same peer-entry
append as `PortConnectedCmd.redo`. -/
def portDisconnectedCmdUndo (g : GraphState) (src trg : PortKey) : GraphState :=
  let g1 := updatePort g src (fun ps => appendConn ps trg.nodeId trg.name)
  updatePort g1 trg (fun ps => appendConn ps src.nodeId src.name)

/-- The node-level output→input edge multigraph of the current state:
one edge `(out node, in node)` per entry of an output port's
`connected_ports`. -/
def stateEdges (g : GraphState) : List (String × String) :=
  g.ports.flatMap (fun e =>
    match e.1.dir with
    | .out => e.2.conns.flatMap (fun c => c.2.map (fun _ => (e.1.nodeId, c.1)))
    | .inp => [])

/-- Bounded reachability along directed edges (`a` reaches `b` in at most
`fuel` steps; zero steps means equality). -/
def nodeReach (edges : List (String × String)) : Nat → String → String → Bool
  | 0, a, b => a == b
  | fuel + 1, a, b =>
      a == b || (edges.filter (fun e => e.1 == a)).any (fun e => nodeReach edges fuel e.2 b)

/-- Modelled from the spec: `NodeViewer.acyclic_check` is defined in
`NodeGraphQt/widgets/viewer.py`, which is not among the extracted sources.
Spec §4.2 step 3: "simulate adding the edge and run a reachability check
from the target back to the source; if a path exists, the connection is
skipped".  The new edge runs from the output-side node to the input-side
node; the check is true exactly when the input-side node already reaches
the output-side node (so that adding the edge closes a cycle).  The fuel
`g.ports.length` bounds every simple path in the state. -/
def acyclicCheck (g : GraphState) (selfK portK : PortKey) : Bool :=
  let srcNode := match selfK.dir with
    | .out => selfK.nodeId
    | .inp => portK.nodeId
  let trgNode := match selfK.dir with
    | .out => portK.nodeId
    | .inp => selfK.nodeId
  nodeReach (stateEdges g) g.ports.length trgNode srcNode

/-- `Port.accepted_port_types` (ports/base_model.py:101): three nested
`get(...) or {}` lookups into the graph model's accept table.  (The
source first asserts that the port belongs to its node — always true for
the keys the embedding uses.) -/
def acceptedPortTypes (g : GraphState) (k : PortKey) : PeerSpec :=
  let data := (alGet g.acceptTab (nodeTypeOf g k.nodeId)).getD []
  let byDir := (alGet data k.dir).getD []
  (alGet byDir k.name).getD []

/-- `Port.rejected_port_types` (ports/base_model.py:127): same lookups
into the reject table. -/
def rejectedPortTypes (g : GraphState) (k : PortKey) : PeerSpec :=
  let data := (alGet g.rejectTab (nodeTypeOf g k.nodeId)).getD []
  let byDir := (alGet data k.dir).getD []
  (alGet byDir k.name).getD []

/-- One accept-table probe from `Port.connect_to`:
`accepted_types = peer.accepted_port_types.get(own_node_type)`;
`if accepted_types:` (truthy = non-empty);
`accepted_pnames = accepted_types.get(own_dtype) or set([])`;
skip when `own_name not in accepted_pnames`. -/
def acceptSkips (g : GraphState) (tablePort ownNode : PortKey) : Bool :=
  let accepted := (alGet (acceptedPortTypes g tablePort) (nodeTypeOf g ownNode.nodeId)).getD []
  if !accepted.isEmpty then
    let pnames := (alGet accepted ownNode.dir).getD []
    decide (ownNode.name ∉ pnames)
  else false

/-- One reject-table probe from `Port.connect_to`: skip when the own port
name is a member of the rejected set. -/
def rejectSkips (g : GraphState) (tablePort ownNode : PortKey) : Bool :=
  let rejected := (alGet (rejectedPortTypes g tablePort) (nodeTypeOf g ownNode.nodeId)).getD []
  if !rejected.isEmpty then
    let pnames := (alGet rejected ownNode.dir).getD []
    decide (ownNode.name ∈ pnames)
  else false

/-- Tail of `Port.connect_to` after the acyclic guard
(ports/base_model.py:326-349): detach the target's previous peer when the
target is single-connection and occupied, detach the caller's previous
peer, then run `PortConnectedCmd`.  (`NodeInputConnectedCmd` /
`NodeInputDisconnectedCmd` call the `BaseNode.on_input_connected` /
`on_input_disconnected` hooks, whose default bodies are `return` — no
model state is touched.) -/
def connectMain (g : GraphState) (selfK portK : PortKey) (preConn? : Option PortKey) :
    Option String × GraphState :=
  let portSt := lookupPort g portK
  let trgConns := connectedPeerKeys portK portSt
  let g1 :=
    match portSt.multi, trgConns with
    | false, dettached :: _ => portDisconnectedCmdRedo g portK dettached
    | _, _ => g
  let g2 :=
    match preConn? with
    | some pre => portDisconnectedCmdRedo g1 selfK pre
    | none => g1
  (none, portConnectedCmdRedo g2 selfK portK)

/-- `Port.connect_to` (ports/base_model.py:240).  The result pairs the
raised exception (if any) with the state when control leaves the method.
Guards, in source order:

1. `if not port: return` — absent partner, no-op;
2. `if self in port.get_connected_ports(): return` — already connected,
   no-op;
3. `if self.locked or port.locked: raise PortError(...)`;
4. two accept-table probes and two reject-table probes, each a silent
   skip;
5. `pre_conn_port`: the first existing peer when `self` is
   single-connection;
6. a second `if not port:` block — unreachable here since `port` was
   truthy at step 1, faithfully elided;
7. `if graph.acyclic() and viewer.acyclic_check(...)`: when a previous
   peer exists, detach it and `return`; the `return` sits inside
   `if pre_conn_port:`, so with no previous peer control falls through to
   the connection code below;
8. the main connection tail (`connectMain`). -/
def connect_to (g : GraphState) (selfK : PortKey) (port? : Option PortKey) :
    Option String × GraphState :=
  match port? with
  | none => (none, g)
  | some portK =>
    let selfSt := lookupPort g selfK
    let portSt := lookupPort g portK
    if selfK ∈ connectedPeerKeys portK portSt then (none, g)
    else if selfSt.locked || portSt.locked then
      (some "PortError: locked", g)
    else if acceptSkips g portK selfK then (none, g)
    else if acceptSkips g selfK portK then (none, g)
    else if rejectSkips g portK selfK then (none, g)
    else if rejectSkips g selfK portK then (none, g)
    else
      let preConn? := if selfSt.multi then none else (connectedPeerKeys selfK selfSt).head?
      if g.acyclic && acyclicCheck g selfK portK then
        match preConn? with
        | some pre => (none, portDisconnectedCmdRedo g selfK pre)
        | none => connectMain g selfK portK preConn?
      else connectMain g selfK portK preConn?

/-- `Port.disconnect_from` (ports/base_model.py:351): no-op on an absent
partner, `PortError` when either port is locked, otherwise
`PortDisconnectedCmd` (plus the no-op node hook command). -/
def disconnect_from (g : GraphState) (selfK : PortKey) (port? : Option PortKey) :
    Option String × GraphState :=
  match port? with
  | none => (none, g)
  | some portK =>
    if (lookupPort g selfK).locked || (lookupPort g portK).locked then
      (some "PortError: locked", g)
    else
      (none, portDisconnectedCmdRedo g selfK portK)

/-! ## Serialization world

The serializer (`NodeGraph._serialize` / `NodeGraph._deserialize`,
base/graph.py) and the node data model (`NodeModel`,
nodes/base_model.py) operate on node objects and JSON-like documents.
`PyVal` embeds the JSON-compatible Python values the document holds. -/

/-- A JSON-compatible Python value as stored in node property
dictionaries and session documents. -/
inductive PyVal where
  | pynone
  | pybool (b : Bool)
  | pyint (n : Int)
  | pystr (s : String)
  | pylist (xs : List PyVal)
  | pydict (xs : List (String × PyVal))

/-- Python truthiness of a `PyVal` (only the cases the embedded code
branches on). -/
def pyValTruthy : PyVal → Bool
  | .pynone => false
  | .pybool b => b
  | .pyint n => n != 0
  | .pystr s => !s.data.isEmpty
  | .pylist xs => !xs.isEmpty
  | .pydict xs => !xs.isEmpty

/-- Read a string out of a `PyVal` (Python would use the value directly;
non-strings never occur where this is applied). -/
def pyValStr : PyVal → String
  | .pystr s => s
  | _ => ""

/-- One port model as the serializer sees it (`PortModel` fields used by
`NodeModel.properties`): `multi_connection`, `display_name` and
`connected_ports`. -/
structure MiniPort where
  multi : Bool
  displayName : Bool
  locked : Bool
  conns : List (String × List String)

/-- The `NodeModel` pydantic record (nodes/base_model.py:14), with its
fields in declaration order.  `width`, `height` and `pos` are Python
floats with integral values in every default and every claim; they are
embedded as integers since no claim performs arithmetic on them.
`inputs` / `outputs` map port names to port models; `_custom_prop` is the
private custom-property dict. -/
structure MiniNode where
  dtype : String
  name : String
  id : String
  borderColor : Int × Int × Int × Int
  textColor : Int × Int × Int × Int
  disabled : Bool
  selected : Bool
  width : Int
  height : Int
  pos : List Int
  layoutDirection : Int
  visible : Bool
  inputs : List (String × MiniPort)
  outputs : List (String × MiniPort)
  portDeletionAllowed : Bool
  custom : List (String × PyVal)

/-- `connected_ports` of one port rendered as a `PyVal`
(dict node id → list of port names). -/
def connsVal (c : List (String × List String)) : PyVal :=
  .pydict (c.map (fun e => (e.1, .pylist (e.2.map .pystr))))

/-- `NodeModel.model_dump(exclude={"inputs", "outputs"})`: the pydantic
field dump in declaration order, minus the two excluded keys. -/
def MiniNode.model_dump (n : MiniNode) : List (String × PyVal) :=
  [ ("dtype", .pystr n.dtype),
    ("name", .pystr n.name),
    ("id", .pystr n.id),
    ("border_color", .pylist [.pyint n.borderColor.1, .pyint n.borderColor.2.1,
        .pyint n.borderColor.2.2.1, .pyint n.borderColor.2.2.2]),
    ("text_color", .pylist [.pyint n.textColor.1, .pyint n.textColor.2.1,
        .pyint n.textColor.2.2.1, .pyint n.textColor.2.2.2]),
    ("disabled", .pybool n.disabled),
    ("selected", .pybool n.selected),
    ("width", .pyint n.width),
    ("height", .pyint n.height),
    ("pos", .pylist (n.pos.map .pyint)),
    ("layout_direction", .pyint n.layoutDirection),
    ("visible", .pybool n.visible),
    ("port_deletion_allowed", .pybool n.portDeletionAllowed) ]

/-- The `_get_ports` helper inside `NodeModel.properties`
(nodes/base_model.py:207): a list of `{name, multi_connection,
display_name}` records, emitted only when `port_deletion_allowed` (the
guard sits inside the comprehension). -/
def portsListVal (pda : Bool) (ports : List (String × MiniPort)) : PyVal :=
  .pylist (ports.filterMap (fun e =>
    if pda then
      some (.pydict [("name", .pystr e.1), ("multi_connection", .pybool e.2.multi),
        ("display_name", .pybool e.2.displayName)])
    else none))

/-- `NodeModel.properties` (nodes/base_model.py:192): the model dump plus
the keys inserted afterwards, in insertion order.  NOTE (source line
219): the `"outputs"` entry is built from `self.inputs` — the source
reads `_get_connected_ports(self.inputs)` for both keys, so the outputs
connection map is a copy of the inputs connection map. -/
def MiniNode.properties (n : MiniNode) : List (String × PyVal) :=
  n.model_dump ++
    [ ("inputs", .pydict (n.inputs.map (fun e => (e.1, connsVal e.2.conns)))),
      ("outputs", .pydict (n.inputs.map (fun e => (e.1, connsVal e.2.conns)))),
      ("input_ports", portsListVal n.portDeletionAllowed n.inputs),
      ("output_ports", portsListVal n.portDeletionAllowed n.outputs),
      ("custom", .pydict n.custom) ]

/-- `NodeModel.set_property` (nodes/base_model.py:127).  The first branch
is Python `self.properties[name] = value`: `properties` is a computed
`@property` that builds and returns a fresh dict, so the subscript
assignment mutates that temporary dict and the node model is returned
unchanged.  The second branch updates the real `_custom_prop` dict.  The
final branch raises `NodePropertyError`. -/
def MiniNode.set_property (n : MiniNode) (name : String) (v : PyVal) :
    Except String MiniNode :=
  if name ∈ n.properties.map Prod.fst then
    .ok n
  else if name ∈ n.custom.map Prod.fst then
    .ok { n with custom := alSet n.custom name v }
  else
    .error "NodePropertyError"

/-- One serialized connection (`{in: [node id, port name], out: [node id,
port name]}` in the document).  Structure equality coincides with Python
dict equality of the pipe dicts. -/
structure SerialPipe where
  inNode : String
  inPort : String
  outNode : String
  outPort : String
deriving DecidableEq

/-- Graph-level settings captured by `_serialize` from the graph model. -/
structure MiniGraphSettings where
  layoutDirection : Int
  acyclic : Bool
  pipeCollision : Bool
  pipeSlicing : Bool
  pipeStyle : Int
  acceptTab : ConnTypeTable
  rejectTab : ConnTypeTable

/-- A session document (`_serialize`'s `serial_data`): the `graph`
sub-dict, `nodes` keyed by node id, and `connections`.  When the pipe
list is empty `_serialize` pops the `connections` key and `_deserialize`
reads it back with `data.get("connections", [])`; an absent key and an
empty list are therefore interchangeable and the embedding always keeps
the list. -/
structure SessionDoc where
  layoutDirection : Int
  acyclic : Bool
  pipeCollision : Bool
  pipeSlicing : Bool
  pipeStyle : Int
  acceptTab : ConnTypeTable
  rejectTab : ConnTypeTable
  nodes : List (String × List (String × PyVal))
  connections : List SerialPipe

/-- Iterate a serialized connection map exactly as the pipe-emission
loops of `_serialize` do: `for pname, conn_data in m.items(): for
conn_id, prt_names in conn_data.items(): for conn_prt in prt_names:`.
The values were built by `NodeModel.properties`, so they have the
dict-of-dict-of-list-of-str shape matched here. -/
def pipeTriples (v : PyVal) : List (String × String × String) :=
  match v with
  | .pydict ports =>
      ports.flatMap (fun pe =>
        match pe.2 with
        | .pydict conns =>
            conns.flatMap (fun ce =>
              match ce.2 with
              | .pylist names =>
                  names.map (fun nv => (pe.1, ce.1, pyValStr nv))
              | _ => [])
        | _ => [])
  | _ => []

/-- Append a pipe unless already present: `if pipe not in
serial_data["connections"]: serial_data["connections"].append(pipe)`. -/
def dedupAppend (acc : List SerialPipe) (p : SerialPipe) : List SerialPipe :=
  if p ∈ acc then acc else acc ++ [p]

/-- The per-node body of `_serialize`'s second loop (base/graph.py:1551):
pop `inputs`/`outputs` from the node's data when truthy, store the rest
under the node id, then emit input-side pipes `{in: [n_id, pname], out:
[conn_id, conn_prt]}` and output-side pipes `{out: [n_id, pname], in:
[conn_id, conn_prt]}`, deduplicating against the accumulated list. -/
def serializeNodeStep (acc : List (String × List (String × PyVal)) × List SerialPipe)
    (entry : String × List (String × PyVal)) :
    List (String × List (String × PyVal)) × List SerialPipe :=
  let nId := entry.1
  let nData := entry.2
  let inputsV := (alGet nData "inputs").getD (.pydict [])
  let outputsV := (alGet nData "outputs").getD (.pydict [])
  let popIn := pyValTruthy inputsV
  let popOut := pyValTruthy outputsV
  let nData1 := if popIn then alErase nData "inputs" else nData
  let nData2 := if popOut then alErase nData1 "outputs" else nData1
  let inputs := if popIn then pipeTriples inputsV else []
  let outputs := if popOut then pipeTriples outputsV else []
  let pipes1 := inputs.foldl
    (fun ps t => dedupAppend ps ⟨nId, t.1, t.2.1, t.2.2⟩) acc.2
  let pipes2 := outputs.foldl
    (fun ps t => dedupAppend ps ⟨t.2.1, t.2.2, nId, t.1⟩) pipes1
  (acc.1 ++ [(nId, nData2)], pipes2)

/-- `NodeGraph._serialize` (base/graph.py:1516): graph settings, the
node-property dicts (`node.update_model()` synchronises the model from
the view through `NodeModel.set_property`, which — see
`MiniNode.set_property` — leaves every default property unchanged and is
a no-op for the widget-less nodes modelled here), and the deduplicated
pipe list. -/
def serializeNodes (st : MiniGraphSettings) (nodes : List MiniNode) : SessionDoc :=
  let nodesData := nodes.map (fun n => (n.id, n.properties))
  let folded := nodesData.foldl serializeNodeStep ([], [])
  { layoutDirection := st.layoutDirection
    acyclic := st.acyclic
    pipeCollision := st.pipeCollision
    pipeSlicing := st.pipeSlicing
    pipeStyle := st.pipeStyle
    acceptTab := st.acceptTab
    rejectTab := st.rejectTab
    nodes := folded.1
    connections := folded.2 }

/-- Items of a `PyVal` dict (Python `.items()`; every site applying this
receives a dict, a non-dict would raise `AttributeError`). -/
def pyValDictItems : PyVal → List (String × PyVal)
  | .pydict xs => xs
  | _ => []

/-- Split a character list on whitespace, dropping empty pieces
(helper for Python `str.split()`; written over `List Char` so that it
evaluates by kernel reduction). -/
def splitWsChars : List Char → List Char → List (List Char)
  | acc, [] => if acc.isEmpty then [] else [acc.reverse]
  | acc, c :: cs =>
      if c.isWhitespace then
        if acc.isEmpty then splitWsChars [] cs
        else acc.reverse :: splitWsChars [] cs
      else splitWsChars (c :: acc) cs

/-- Python `str.split()` with no argument: split on whitespace runs,
dropping empty pieces. -/
def pySplitWs (s : String) : List String :=
  (splitWsChars [] s.data).map List.asString

/-- A character matched by the regex class `\w`. -/
def isWordChar (c : Char) : Bool :=
  c.isAlphanum || c == '_'

/-- Whether `\w+ (\d+)$` matches the (already whitespace-normalized)
name: a final all-digit token preceded by a space and a token ending in a
word character. -/
def nameNumberSuffix (parts : List String) : Bool :=
  match parts.reverse with
  | last :: prev :: _ =>
      !last.data.isEmpty && last.data.all Char.isDigit &&
        (match prev.data.getLast? with
         | some c => isWordChar c
         | none => false)
  | _ => false

/-- First numeric suffix in `range(1, len(node_names) + 2)` making
`f"{name} {x}"` unused.  By pigeonhole some candidate is always free; the
fallback mirrors Python falling off the loop (returning `None`) and is
unreachable. -/
def firstFreeSuffix (nodeNames : List String) (base : String) : String :=
  match (List.range (nodeNames.length + 1)).find?
      (fun i => (base ++ " " ++ toString (i + 1)) ∉ nodeNames) with
  | some i => base ++ " " ++ toString (i + 1)
  | none => base

/-- `NodeGraph.get_unique_name` (base/graph.py:1456): normalize
whitespace; return the name when unused; otherwise append the first free
numeric suffix, first stripping an existing ` <digits>` suffix when the
name already carries one. -/
def getUniqueName (nodeNames : List String) (name0 : String) : String :=
  let parts := pySplitWs name0
  let name := " ".intercalate parts
  if name ∉ nodeNames then name
  else if !nameNumberSuffix parts then firstFreeSuffix nodeNames name
  else firstFreeSuffix nodeNames (" ".intercalate parts.dropLast)

/-- A placeholder node model for the association-list update helper; the
deserializer only ever updates keys that are present. -/
def emptyMiniNode : MiniNode :=
  { dtype := "", name := "", id := "", borderColor := (0, 0, 0, 0),
    textColor := (0, 0, 0, 0), disabled := false, selected := false,
    width := 0, height := 0, pos := [], layoutDirection := 0, visible := true,
    inputs := [], outputs := [], portDeletionAllowed := false, custom := [] }

/-- Placeholder port for the association-list update helper. -/
def emptyMiniPort : MiniPort :=
  { multi := false, displayName := true, locked := false, conns := [] }

/-- Parse one serialized port dict for `BaseNode.set_ports` /
`add_input` / `add_output`: `port["name"]`, `port["multi_connection"]`,
`port["display_name"]` (`KeyError` when missing) and
`port.get("locked") or False`. -/
def parseMiniPort (v : PyVal) : Except String (String × MiniPort) :=
  match v with
  | .pydict d => do
      let name ← match alGet d "name" with
        | some nv => pure (pyValStr nv)
        | none => .error "KeyError: name"
      let multi ← match alGet d "multi_connection" with
        | some mv => pure (pyValTruthy mv)
        | none => .error "KeyError: multi_connection"
      let dispName ← match alGet d "display_name" with
        | some dv => pure (pyValTruthy dv)
        | none => .error "KeyError: display_name"
      let locked := pyValTruthy ((alGet d "locked").getD .pynone)
      pure (name, { multi := multi, displayName := dispName, locked := locked, conns := [] })
  | _ => .error "TypeError"

/-- Add parsed ports one by one (`BaseNode.add_input` /
`BaseNode.add_output` raise `PortRegistrationError` on a duplicate port
name). -/
def addParsedPorts (acc : List (String × MiniPort)) (vs : List PyVal) :
    Except String (List (String × MiniPort)) :=
  vs.foldlM (fun ps v => do
    let p ← parseMiniPort v
    if p.1 ∈ ps.map Prod.fst then .error "PortRegistrationError"
    else pure (ps ++ [p])) acc

/-- `BaseNode.set_ports` (nodes/base.py:497): raise `PortError` unless
`port_deletion_allowed`; drop all current ports; rebuild inputs and
outputs from the serialized `input_ports` / `output_ports` lists. -/
def miniSetPorts (n : MiniNode) (inPorts outPorts : PyVal) : Except String MiniNode := do
  if !n.portDeletionAllowed then .error "PortError: set_port_deletion_allowed"
  let ins ← addParsedPorts [] (match inPorts with | .pylist vs => vs | _ => [])
  let outs ← addParsedPorts [] (match outPorts with | .pylist vs => vs | _ => [])
  pure { n with inputs := ins, outputs := outs }

/-- State of `_deserialize`: `nodes` — the created nodes keyed by their
serialized (document) id; `graphNodes` — the nodes the graph already held
before deserialization, keyed by their model id as `get_node_by_id` finds
them (`NodeAddedCmd.redo` also registers each created node there under
its freshly generated uuid, an id no serialized document can name, so
that registration is invisible to the connection loop and not recorded);
`callbacks` — the `on_input_connected` invocations in order. -/
structure DeserState where
  nodes : List (String × MiniNode)
  graphNodes : List (String × MiniNode)
  callbacks : List SerialPipe

/-- Where a resolved node object lives, so that mutations hit the object
the lookup returned. -/
inductive NodeAnchor where
  | fresh (docId : String)
  | existing (gid : String)

/-- `nodes.get(nid) or self.get_node_by_id(nid)`
(base/graph.py:1645). -/
def resolveNode (ds : DeserState) (nid : String) : Option (NodeAnchor × MiniNode) :=
  match alGet ds.nodes nid with
  | some n => some (.fresh nid, n)
  | none => (alGet ds.graphNodes nid).map (fun n => (.existing nid, n))

/-- Mutate the node object a `NodeAnchor` designates. -/
def updateAnchored (ds : DeserState) (a : NodeAnchor) (f : MiniNode → MiniNode) : DeserState :=
  match a with
  | .fresh k => { ds with nodes := alUpdate ds.nodes k f emptyMiniNode }
  | .existing k => { ds with graphNodes := alUpdate ds.graphNodes k f emptyMiniNode }

/-- One side of `PortConnectedCmd.redo` on a port model:
`connected_ports[peer_node_id].append(peer_port_name)`. -/
def miniPortAppend (p : MiniPort) (nid nm : String) : MiniPort :=
  { p with conns := alUpdate p.conns nid (fun l => l ++ [nm]) [] }

/-- `PortConnectedCmd(in_port, out_port, emit_signal=False)` executed by
the undo stack's `push` during `_deserialize`: append the symmetric peer
entries on the input port and on the output port (sequentially, so a
node connected to itself composes both mutations). -/
def miniPortConnectedRedo (ds : DeserState) (inA : NodeAnchor) (inN : MiniNode)
    (outA : NodeAnchor) (outN : MiniNode) (inPname outPname : String) : DeserState :=
  let ds1 := updateAnchored ds inA (fun n =>
    { n with inputs := alUpdate n.inputs inPname (fun p => miniPortAppend p outN.id outPname) emptyMiniPort })
  updateAnchored ds1 outA (fun n =>
    { n with outputs := alUpdate n.outputs outPname (fun p => miniPortAppend p inN.id inPname) emptyMiniPort })

/-- The duplication-safety test of `_deserialize` (base/graph.py:1660):
`any([not in_port.connected_ports, in_port.view.multi_connection])` —
connect only when the input port's `connected_ports` dict is falsy
(empty) or the port is declared multi-connection.  (`view.
multi_connection` mirrors the model flag, both being assigned from the
same `add_input` argument.) -/
def allowConnection (p : MiniPort) : Bool :=
  !pyDictTruthy p.conns || p.multi

/-- One iteration of the connection loop of `_deserialize`
(base/graph.py:1643-1670): resolve the input node (skip the entry when it
is missing), fetch its input port, resolve the output node (skip when
missing), fetch its output port; when both ports resolve, connect only
when `allowConnection` holds, then invoke
`in_node.on_input_connected(in_port, out_port)` regardless (recorded in
`callbacks`; the default hook body is `return`). -/
def deserializeConnStep (ds : DeserState) (pipe : SerialPipe) : DeserState :=
  match resolveNode ds pipe.inNode with
  | none => ds
  | some (inA, inN) =>
    let inPort? := alGet inN.inputs pipe.inPort
    match resolveNode ds pipe.outNode with
    | none => ds
    | some (outA, outN) =>
      let outPort? := alGet outN.outputs pipe.outPort
      match inPort?, outPort? with
      | some inPort, some _outPort =>
          let ds1 :=
            if allowConnection inPort then
              miniPortConnectedRedo ds inA inN outA outN pipe.inPort pipe.outPort
            else ds
          { ds1 with callbacks := ds1.callbacks ++ [pipe] }
      | _, _ => ds

/-- The node-building body of `_deserialize` (base/graph.py:1615-1640)
for one serialized node entry:

* `identifier = n_data["dtype"]` (`KeyError` when absent);
* `node = self._node_factory.create_node_instance(identifier)`; skip the
  entry silently when the identifier is unregistered.  A created
  instance starts as the freshly-constructed node model of its class —
  the factory value `template` — except that its `id` is a fresh
  `uuid4().hex`; the embedding keeps the template id, the claims never
  relying on uuid freshness;
* `node.NODE_NAME = n_data.get("name", node.NODE_NAME)` rebinds the
  instance attribute later read by `add_node`;
* the default-property restoration loop (`set_property` for every
  serialized key among `node.model.properties`) and the custom-property
  loop;
* `nodes[n_id] = node` and `self.add_node(node, n_data.get("pos"))`.
  `add_node` (base/graph.py:1160) assigns
  `node.model.name = get_unique_name(node.NODE_NAME)` and
  `node.model.layout_direction = self.layout_direction()`, and
  `NodeAddedCmd.redo` copies the realized view geometry into
  `node.model.width` / `node.model.height` (the view belongs to the
  excluded rendering layer; its current size is passed in as
  `viewW`/`viewH`).  The model `pos` is not assigned on this path (the
  `pos` argument only places the view item);
* when `n_data.get("port_deletion_allowed", None)` is truthy, rebuild
  the ports from `n_data["input_ports"]` / `n_data["output_ports"]`.

The source stores the node object in `nodes` before `add_node` mutates
it further; both see the same object, so applying all mutations before
recording the node yields the same final state. -/
def deserializeNodeStep (factory : List (String × MiniNode)) (layoutDir : Int)
    (viewW viewH : Int) (ds : DeserState) (entry : String × List (String × PyVal)) :
    Except String DeserState := do
  let nId := entry.1
  let nData := entry.2
  let identifier ← match alGet nData "dtype" with
    | some v => pure (pyValStr v)
    | none => .error "KeyError: dtype"
  match alGet factory identifier with
  | none => pure ds
  | some template =>
    let nodeName := ((alGet nData "name").map pyValStr).getD template.name
    let node ← (template.properties.map Prod.fst).foldlM
      (fun (nd : MiniNode) p =>
        match alGet nData p with
        | some v => nd.set_property p v
        | none => pure nd) template
    let node ← (pyValDictItems ((alGet nData "custom").getD (.pydict []))).foldlM
      (fun (nd : MiniNode) e => nd.set_property e.1 e.2) node
    let existingNames := ds.graphNodes.map (fun e => e.2.name) ++
      ds.nodes.map (fun e => e.2.name)
    let uname := getUniqueName existingNames nodeName
    let node := { node with name := uname, layoutDirection := layoutDir, width := viewW, height := viewH }
    let node ←
      if pyValTruthy ((alGet nData "port_deletion_allowed").getD .pynone) then do
        let inPorts ← match alGet nData "input_ports" with
          | some v => pure v
          | none => .error "KeyError: input_ports"
        let outPorts ← match alGet nData "output_ports" with
          | some v => pure v
          | none => .error "KeyError: output_ports"
        miniSetPorts node inPorts outPorts
      else pure node
    pure { ds with nodes := ds.nodes ++ [(nId, node)] }

/-- `NodeGraph._deserialize` (base/graph.py:1583) on the default path
(`relative_pos=False`, `pos=None`, as `deserialize_session` calls it; the
final branch that moves the created views and copies their positions back
is not taken): apply the graph-level settings the loop at the top
recognises (`pipe_style` is serialized but has no handler and is
ignored), build the nodes, then restore the connections. -/
def deserializeSession (factory : List (String × MiniNode))
    (graphNodes : List (String × MiniNode)) (st : MiniGraphSettings)
    (doc : SessionDoc) (viewW viewH : Int) :
    Except String (MiniGraphSettings × DeserState) := do
  let st2 := { st with layoutDirection := doc.layoutDirection, acyclic := doc.acyclic, pipeCollision := doc.pipeCollision, pipeSlicing := doc.pipeSlicing, acceptTab := doc.acceptTab, rejectTab := doc.rejectTab }
  let ds0 : DeserState := { nodes := [], graphNodes := graphNodes, callbacks := [] }
  let ds1 ← doc.nodes.foldlM (deserializeNodeStep factory st2.layoutDirection viewW viewH) ds0
  let ds2 := doc.connections.foldl deserializeConnStep ds1
  pure (st2, ds2)

/-! ## Node factory (base/factory.py) -/

/-- `NodeFactory`: `__names` maps an alias name to the list of type
identifiers registered under it, `__nodes` maps a type identifier to the
registered node class.  Node classes are opaque constructor ids here;
Python class objects are always truthy, so `if
self.__nodes.get(node_type):` is a presence test. -/
structure NodeFactory where
  names : List (String × List String)
  nodes : List (String × Nat)
deriving DecidableEq

/-- `NodeFactory.create_node_instance` (base/factory.py:33):
`_NodeClass = self.__nodes.get(node_type); if _NodeClass: return
_NodeClass()` — resolve the stored class (and instantiate it), or return
`None` implicitly. -/
def create_node_instance (f : NodeFactory) (nodeType : String) : Option Nat :=
  alGet f.nodes nodeType

/-- `NodeFactory.register_node` (base/factory.py:47): when the type
identifier is already registered, print a diagnostic and return without
storing (the Bool records that the diagnostic was printed); otherwise
store the class and append the identifier under the alias name —
`if self.__names.get(name):` append to the existing (truthy, non-empty)
list, else bind a fresh singleton list. -/
def register_node (f : NodeFactory) (node : Nat) (name nodeType : String) :
    NodeFactory × Bool :=
  if (alGet f.nodes nodeType).isSome then (f, true)
  else
    let f1 := { f with nodes := alSet f.nodes nodeType node }
    match (alGet f1.names name).getD [] with
    | [] => ({ f1 with names := alSet f1.names name [nodeType] }, false)
    | l => ({ f1 with names := alSet f1.names name (l ++ [nodeType]) }, false)

/-- `NodeFactory.clear_registered_nodes` (base/factory.py:74). -/
def clear_registered_nodes (_f : NodeFactory) : NodeFactory :=
  { names := [], nodes := [] }

/-! ## Auto-layout rank computation (base/graph.py:1962-2005) -/

/-- The node-level graph the rank computation walks: one edge per
connected node pair in the layout direction (for `down_stream=True` an
edge `(node, n)` for every `n` among `node.connected_output_nodes()`
values; for `down_stream=False` the connected input nodes play that
role). -/
structure LayoutGraph where
  edges : List (String × String)

/-- The connected-node set of `_update_node_rank`:
`connected_nodes = set(); for nodes in node_values:
connected_nodes.update(nodes)` — the deduplicated successors of `u`.
Python set iteration order is unspecified; the embedding keeps
first-occurrence order (the computed ranks are order-independent). -/
def succs (g : LayoutGraph) (u : String) : List String :=
  ((g.edges.filter (fun e => e.1 == u)).map (fun e => e.2)).dedup

/-- `nodes_rank`, keyed by node. -/
abbrev RankMap := List (String × Nat)

/-- `nodes_rank[node]` (always present when the algorithm reads it). -/
def rankOf (m : RankMap) (u : String) : Nat :=
  (alGet m u).getD 0

/-- `if n in nodes_rank: nodes_rank[n] = max(nodes_rank[n], rank) else:
nodes_rank[n] = rank`. -/
def bumpRank (m : RankMap) (v : String) (r : Nat) : RankMap :=
  match alGet m v with
  | some old => alSet m v (max old r)
  | none => alSet m v r

/-- The `for n in connected_nodes:` loop body of `_update_node_rank`:
bump `v` with the caller's rank, recurse into `v` (the recursive call is
the `visit` parameter, instantiated below with the rank update at one
fuel unit less), continue with the rest. -/
def updateRankList (visit : String → RankMap → Option RankMap) :
    List String → Nat → RankMap → Option RankMap
  | [], _, m => some m
  | v :: vs, r, m =>
      match visit v (bumpRank m v r) with
      | none => none
      | some m2 => updateRankList visit vs r m2

/-- `NodeGraph._update_node_rank` (base/graph.py:1962): compute
`rank = nodes_rank[node] + 1`, then bump every connected node in the
layout direction and recurse into it.  The Python recursion has no cycle
guard; it is embedded with explicit fuel, each recursive call consuming
one unit, and `none` meaning the fuel ran out — which on a cyclic graph
happens for every fuel (see the C8 theorem). -/
def updateNodeRank (g : LayoutGraph) : Nat → String → RankMap → Option RankMap
  | 0 => fun _ _ => none
  | fuel + 1 => fun u m =>
      updateRankList (updateNodeRank g fuel) (succs g u) (rankOf m u + 1) m

/-- `NodeGraph._compute_node_rank` (base/graph.py:1989): rank each start
node 0 and propagate (`nodes_rank[node] = 0` resets unconditionally
before each propagation). -/
def computeNodeRank (g : LayoutGraph) (starts : List String) (fuel : Nat) :
    Option RankMap :=
  starts.foldlM (fun m s => updateNodeRank g fuel s (alSet m s 0)) []

/-! ## Association-list lemmas -/

theorem alGet_alSet {κ α : Type} [BEq κ] [LawfulBEq κ] [DecidableEq κ]
    (m : List (κ × α)) (k k2 : κ) (v : α) :
    alGet (alSet m k v) k2 = if k2 = k then some v else alGet m k2 := by
  induction m with
  | nil =>
      by_cases h : k2 = k
      · simp [alSet, alGet, h]
      · simp [alSet, alGet, h, Ne.symm h]
  | cons e rest ih =>
      by_cases hek : e.1 = k
      · by_cases h : k2 = k
        · simp [alSet, alGet, hek, h]
        · simp [alSet, alGet, hek, h, Ne.symm h]
      · have hbe : (e.1 == k) = false := by simp [hek]
        by_cases h : k2 = e.1
        · have hne : ¬(k2 = k) := by rw [h]; exact hek
          simp [alSet, alGet, hbe, h, hne, hek]
        · have hbe2 : (e.1 == k2) = false := by
            simp
            intro hc
            exact h hc.symm
          simp [alSet, alGet, hbe, hbe2, ih]

theorem alGet_alUpdate {κ α : Type} [BEq κ] [LawfulBEq κ] [DecidableEq κ]
    (m : List (κ × α)) (k k2 : κ) (f : α → α) (d : α) :
    alGet (alUpdate m k f d) k2 =
      if k2 = k then some (f ((alGet m k).getD d)) else alGet m k2 := by
  induction m with
  | nil =>
      by_cases h : k2 = k
      · simp [alUpdate, alGet, h]
      · simp [alUpdate, alGet, h, Ne.symm h]
  | cons e rest ih =>
      by_cases hek : e.1 = k
      · by_cases h : k2 = k
        · simp [alUpdate, alGet, hek, h]
        · simp [alUpdate, alGet, hek, h, Ne.symm h]
      · have hbe : (e.1 == k) = false := by simp [hek]
        by_cases h : k2 = e.1
        · have hne : ¬(k2 = k) := by rw [h]; exact hek
          simp [alUpdate, alGet, hbe, h, hne, hek]
        · have hbe2 : (e.1 == k2) = false := by
            simp
            intro hc
            exact h hc.symm
          simp [alUpdate, alGet, hbe, hbe2, ih]

theorem alSet_keys_of_present {κ α : Type} [BEq κ] [LawfulBEq κ] (m : List (κ × α))
    (k : κ) (v v0 : α) (h : alGet m k = some v0) :
    (alSet m k v).map Prod.fst = m.map Prod.fst := by
  induction m with
  | nil => simp [alGet] at h
  | cons e rest ih =>
      by_cases hek : (e.1 == k) = true
      · have : e.1 = k := eq_of_beq hek
        simp [alSet, hek, this]
      · have hbe : (e.1 == k) = false := by
          cases hx : e.1 == k
          · rfl
          · exact absurd hx hek
        simp [alGet, hbe] at h
        simp [alSet, hbe, ih h]

theorem alUpdate_keys_of_present {κ α : Type} [BEq κ] [LawfulBEq κ] (m : List (κ × α))
    (k : κ) (f : α → α) (d : α) (v0 : α) (h : alGet m k = some v0) :
    (alUpdate m k f d).map Prod.fst = m.map Prod.fst := by
  induction m with
  | nil => simp [alGet] at h
  | cons e rest ih =>
      by_cases hek : (e.1 == k) = true
      · simp [alUpdate, hek]
      · have hbe : (e.1 == k) = false := by
          cases hx : e.1 == k
          · rfl
          · exact absurd hx hek
        simp [alGet, hbe] at h
        simp [alUpdate, hbe, ih h]

/-! ## Claims C9 and C10 -/

/-- C9.  Registering a constructor under an already-registered type
identifier prints a diagnostic (`register_node` returns the flag `true`),
raises nothing and leaves the factory unchanged, so the original
constructor stays resolvable; registering under a fresh identifier stores
the constructor and appends the identifier to the (possibly shared) alias
list under `name`. -/
theorem register_node_spec (f : NodeFactory) (c : Nat) (name ntype : String) :
    create_node_instance (register_node f c name ntype).1 ntype
        = some ((create_node_instance f ntype).getD c)
    ∧ (register_node f c name ntype).2 = (create_node_instance f ntype).isSome
    ∧ ((create_node_instance f ntype).isSome → register_node f c name ntype = (f, true))
    ∧ (create_node_instance f ntype = none →
        alGet (register_node f c name ntype).1.names name
          = some ((alGet f.names name).getD [] ++ [ntype])) := by
  unfold register_node create_node_instance
  by_cases h : (alGet f.nodes ntype).isSome
  · obtain ⟨c0, hc0⟩ := Option.isSome_iff_exists.mp h
    simp [hc0]
  · have hn : alGet f.nodes ntype = none := Option.not_isSome_iff_eq_none.mp h
    rw [hn]
    refine ⟨?_, ?_, ?_, ?_⟩
    · cases hnm : (alGet f.names name).getD [] with
      | nil => simp [hnm, alGet_alSet]
      | cons a l => simp [hnm, alGet_alSet]
    · cases hnm : (alGet f.names name).getD [] with
      | nil => simp [hnm]
      | cons a l => simp [hnm]
    · simp
    · intro _
      cases hnm : (alGet f.names name).getD [] with
      | nil => simp [hnm, alGet_alSet]
      | cons a l => simp [hnm, alGet_alSet]

/-- Witness for `register_node_spec` at a concrete factory: `"demo.A"`
is registered to constructor `1`; re-registering it under constructor `2`
is a rejected no-op and `1` stays resolvable; registering the fresh
`"demo.B"` under the shared alias stores it and extends the alias
list. -/
theorem register_node_spec_witness :
    (create_node_instance ⟨[("node", ["demo.A"])], [("demo.A", 1)]⟩ "demo.A").isSome
    ∧ register_node ⟨[("node", ["demo.A"])], [("demo.A", 1)]⟩ 2 "node" "demo.A"
        = (⟨[("node", ["demo.A"])], [("demo.A", 1)]⟩, true)
    ∧ create_node_instance ⟨[("node", ["demo.A"])], [("demo.A", 1)]⟩ "demo.B" = none
    ∧ alGet (register_node ⟨[("node", ["demo.A"])], [("demo.A", 1)]⟩ 2 "node" "demo.B").1.names
        "node" = some (["demo.A"] ++ ["demo.B"]) := by
  refine ⟨by decide, ?_, by decide, ?_⟩
  · exact (register_node_spec ⟨[("node", ["demo.A"])], [("demo.A", 1)]⟩ 2 "node" "demo.A").2.2.1
      (by decide)
  · have h := (register_node_spec ⟨[("node", ["demo.A"])], [("demo.A", 1)]⟩ 2 "node" "demo.B").2.2.2
      (by decide)
    simpa using h

/-- The demonstration state for C10: output port `"out"` on node `"A"`
and single-connection input port `"in"` on node `"B"`, connected by
`PortConnectedCmd.redo` and then disconnected by
`PortDisconnectedCmd.redo`. -/
def c10State : GraphState :=
  portDisconnectedCmdRedo
    (portConnectedCmdRedo
      { acyclic := true, nodeTypes := [("A", "t"), ("B", "t")], acceptTab := [],
        rejectTab := [],
        ports := [ (⟨"A", .out, "out"⟩, { multi := true, locked := false, conns := [] }),
                   (⟨"B", .inp, "in"⟩, { multi := false, locked := false, conns := [] }) ] }
      ⟨"A", .out, "out"⟩ ⟨"B", .inp, "in"⟩)
    ⟨"A", .out, "out"⟩ ⟨"B", .inp, "in"⟩

/-- C10.  `PortDisconnectedCmd.redo` (and the identical
`PortConnectedCmd.undo`) removes the peer port name from the list under
the peer node's id, but never deletes the node-id key: the guard
`port_names is []` compares against a fresh list literal and is false for
every value, so the key map of `connected_ports` is exactly preserved.
Consequently, after connect-then-disconnect the input port has zero
resolvable peers while its `connected_ports` dict is non-empty (truthy),
which falsifies `not in_port.connected_ports` — the duplication-safety
test `allowConnection` of `_deserialize` returns `false` for that
peer-less single-connection port. -/
theorem disconnect_keeps_empty_keys :
    (∀ pn, pyIsFreshEmptyList pn = false)
    ∧ (∀ ps nid nm, (removeConnSide ps nid nm).conns.map Prod.fst = ps.conns.map Prod.fst)
    ∧ (∀ ps nid nm l, alGet ps.conns nid = some l →
        alGet (removeConnSide ps nid nm).conns nid
          = some (if !l.isEmpty && nm ∈ l then l.erase nm else l))
    ∧ (lookupPort c10State ⟨"B", .inp, "in"⟩).conns = [("A", [])]
    ∧ connectedPeerKeys ⟨"B", .inp, "in"⟩ (lookupPort c10State ⟨"B", .inp, "in"⟩) = []
    ∧ pyDictTruthy (lookupPort c10State ⟨"B", .inp, "in"⟩).conns = true
    ∧ allowConnection
        { multi := false, displayName := true, locked := false,
          conns := (lookupPort c10State ⟨"B", .inp, "in"⟩).conns } = false := by
  refine ⟨fun _ => rfl, ?_, ?_, by decide, by decide, by decide, by decide⟩
  · intro ps nid nm
    unfold removeConnSide
    simp only [pyIsFreshEmptyList]
    cases hpn : alGet ps.conns nid with
    | none => simp
    | some l =>
        by_cases hg : (!l.isEmpty && decide (nm ∈ l)) = true
        · simp only [hg]
          simp only [if_pos rfl, if_neg (by decide : ¬(false = true))]
          exact alSet_keys_of_present ps.conns nid _ l hpn
        · simp only [hg]
          simp
  · intro ps nid nm l hpn
    unfold removeConnSide
    simp only [pyIsFreshEmptyList, hpn]
    by_cases hg : (!l.isEmpty && decide (nm ∈ l)) = true
    · simp only [hg]
      simp only [if_pos rfl, if_neg (by decide : ¬(false = true))]
      simp [alGet_alSet]
    · simp only [hg]
      simpa using hpn

/-- Witness for `disconnect_keeps_empty_keys`: the third conjunct applied
to a concrete port state holding one peer entry. -/
theorem disconnect_keeps_empty_keys_witness :
    alGet (removeConnSide { multi := false, locked := false, conns := [("A", ["out"])] }
        "A" "out").conns "A"
      = some (if !(["out"] : List String).isEmpty && "out" ∈ (["out"] : List String) then
          (["out"] : List String).erase "out" else ["out"]) :=
  disconnect_keeps_empty_keys.2.2.1
    { multi := false, locked := false, conns := [("A", ["out"])] } "A" "out" ["out"]
    (by decide)

/-! ## Claims C5, C6, C1 -/

/-- A single unconnected output port (`add_output` default:
`multi_connection=True`) on node `"N"`, `acyclic=True` (the graph model
default). -/
def c5Graph : GraphState :=
  { acyclic := true, nodeTypes := [("N", "demo.Node")], acceptTab := [], rejectTab := [],
    ports := [ (⟨"N", .out, "out"⟩, { multi := true, locked := false, conns := [] }) ] }

/-- The port of `c5Graph`. -/
def c5Port : PortKey := ⟨"N", .out, "out"⟩

/-- C5 counterexample.  Connecting a fresh (unconnected) port to itself
is NOT a no-op: none of the guards in `connect_to` fires (`self in
port.get_connected_ports()` is false for an unconnected port), so
`PortConnectedCmd` runs with source and target aliasing the same port
object and appends two self-entries; the state changes and the claimed
no-op fails. -/
theorem self_connect_modifies_state_counterexample :
    (lookupPort c5Graph c5Port).conns = []
    ∧ (connect_to c5Graph c5Port (some c5Port)).1 = none
    ∧ (lookupPort (connect_to c5Graph c5Port (some c5Port)).2 c5Port).conns
        = [("N", ["out", "out"])] := by
  refine ⟨by decide, by decide, by decide⟩

/-- C5 amended.  Of the three claimed no-op policies, two hold: a
`connect_to` with an absent (`None`) partner returns without raising and
without touching the state, and connecting two already-connected ports is
a silent no-op.  Connecting a port to itself, however, is not guarded:
on a fresh port it appends two self-entries (the behavior of the
counterexample, restated in the last conjunct). -/
theorem connect_noop_policies_amended (g : GraphState) (s p : PortKey)
    (h : s ∈ connectedPeerKeys p (lookupPort g p)) :
    connect_to g s none = (none, g)
    ∧ connect_to g s (some p) = (none, g)
    ∧ (lookupPort (connect_to c5Graph c5Port (some c5Port)).2 c5Port).conns
        = [("N", ["out", "out"])] := by
  refine ⟨rfl, ?_, by decide⟩
  unfold connect_to
  simp [h]

/-- Witness for `connect_noop_policies_amended` at a concrete
already-connected pair. -/
theorem connect_noop_policies_amended_witness :
    (⟨"A", .out, "out"⟩ : PortKey) ∈ connectedPeerKeys ⟨"B", .inp, "in"⟩
      (lookupPort
        { acyclic := true, nodeTypes := [("A", "t"), ("B", "t")], acceptTab := [],
          rejectTab := [],
          ports := [ (⟨"A", .out, "out"⟩, { multi := true, locked := false, conns := [("B", ["in"])] }),
                     (⟨"B", .inp, "in"⟩, { multi := false, locked := false, conns := [("A", ["out"])] }) ] }
        ⟨"B", .inp, "in"⟩)
    ∧ connect_to
        { acyclic := true, nodeTypes := [("A", "t"), ("B", "t")], acceptTab := [],
          rejectTab := [],
          ports := [ (⟨"A", .out, "out"⟩, { multi := true, locked := false, conns := [("B", ["in"])] }),
                     (⟨"B", .inp, "in"⟩, { multi := false, locked := false, conns := [("A", ["out"])] }) ] }
        ⟨"A", .out, "out"⟩ (some ⟨"B", .inp, "in"⟩)
      = (none,
        { acyclic := true, nodeTypes := [("A", "t"), ("B", "t")], acceptTab := [],
          rejectTab := [],
          ports := [ (⟨"A", .out, "out"⟩, { multi := true, locked := false, conns := [("B", ["in"])] }),
                     (⟨"B", .inp, "in"⟩, { multi := false, locked := false, conns := [("A", ["out"])] }) ] }) :=
  ⟨by decide,
   (connect_noop_policies_amended _ ⟨"A", .out, "out"⟩ ⟨"B", .inp, "in"⟩ (by decide)).2.1⟩

/-- Two connected ports where the input side is locked (its `locked`
field is true), used for the C6 counterexample. -/
def c6Graph : GraphState :=
  { acyclic := true, nodeTypes := [("A", "t"), ("B", "t")], acceptTab := [], rejectTab := [],
    ports := [ (⟨"A", .out, "out"⟩, { multi := true, locked := false, conns := [("B", ["in"])] }),
               (⟨"B", .inp, "in"⟩, { multi := false, locked := true, conns := [("A", ["out"])] }) ] }

/-- C6 counterexample.  `connect_to` checks `self in
port.get_connected_ports()` BEFORE the lock check, so connecting a pair
of already-connected ports where one is locked silently returns instead
of raising the locked-port error the claim demands for every pair with a
locked member. -/
theorem locked_connect_silent_counterexample :
    (lookupPort c6Graph ⟨"B", .inp, "in"⟩).locked = true
    ∧ connect_to c6Graph ⟨"A", .out, "out"⟩ (some ⟨"B", .inp, "in"⟩) = (none, c6Graph) := by
  exact ⟨by decide, rfl⟩

/-- C6 amended.  When either port is locked, `connect_to` raises the
locked-port `PortError` — provided the partner is present and the two
ports are not already connected (the already-connected no-op guard
precedes the lock check) — and `disconnect_from` raises it whenever the
partner is present; in both cases the error is raised before any
mutation, so the returned state is the input state. -/
theorem locked_raises_amended (g : GraphState) (s p : PortKey)
    (hlock : (lookupPort g s).locked = true ∨ (lookupPort g p).locked = true)
    (hnc : s ∉ connectedPeerKeys p (lookupPort g p)) :
    connect_to g s (some p) = (some "PortError: locked", g)
    ∧ disconnect_from g s (some p) = (some "PortError: locked", g) := by
  constructor
  · unfold connect_to
    rcases hlock with h1 | h1 <;> simp [hnc, h1]
  · unfold disconnect_from
    rcases hlock with h1 | h1 <;> simp [h1]

/-- Witness for `locked_raises_amended`: a locked, not-yet-connected
pair raises on both operations. -/
theorem locked_raises_amended_witness :
    ((lookupPort
        { acyclic := true, nodeTypes := [("A", "t"), ("B", "t")], acceptTab := [],
          rejectTab := [],
          ports := [ (⟨"A", .out, "out"⟩, { multi := true, locked := false, conns := [] }),
                     (⟨"B", .inp, "in"⟩, { multi := false, locked := true, conns := [] }) ] }
        ⟨"A", .out, "out"⟩).locked = true
      ∨ (lookupPort
        { acyclic := true, nodeTypes := [("A", "t"), ("B", "t")], acceptTab := [],
          rejectTab := [],
          ports := [ (⟨"A", .out, "out"⟩, { multi := true, locked := false, conns := [] }),
                     (⟨"B", .inp, "in"⟩, { multi := false, locked := true, conns := [] }) ] }
        ⟨"B", .inp, "in"⟩).locked = true)
    ∧ (connect_to
        { acyclic := true, nodeTypes := [("A", "t"), ("B", "t")], acceptTab := [],
          rejectTab := [],
          ports := [ (⟨"A", .out, "out"⟩, { multi := true, locked := false, conns := [] }),
                     (⟨"B", .inp, "in"⟩, { multi := false, locked := true, conns := [] }) ] }
        ⟨"A", .out, "out"⟩ (some ⟨"B", .inp, "in"⟩)).1 = some "PortError: locked" := by
  refine ⟨Or.inr (by decide), ?_⟩
  have h := locked_raises_amended
    { acyclic := true, nodeTypes := [("A", "t"), ("B", "t")], acceptTab := [],
      rejectTab := [],
      ports := [ (⟨"A", .out, "out"⟩, { multi := true, locked := false, conns := [] }),
                 (⟨"B", .inp, "in"⟩, { multi := false, locked := true, conns := [] }) ] }
    ⟨"A", .out, "out"⟩ ⟨"B", .inp, "in"⟩ (Or.inr (by decide)) (by decide)
  rw [h.1]

/-- The two-node scenario of the C1 claim: nodes `"A"` and `"B"`, each
with an input `"in"` (`multi_connection=False`) and an output `"out"`
(`multi_connection=True`), no constraint tables, `acyclic=True`. -/
def c1Graph : GraphState :=
  { acyclic := true, nodeTypes := [("A", "demo.Node"), ("B", "demo.Node")],
    acceptTab := [], rejectTab := [],
    ports := [ (⟨"A", .out, "out"⟩, { multi := true, locked := false, conns := [] }),
               (⟨"A", .inp, "in"⟩, { multi := false, locked := false, conns := [] }),
               (⟨"B", .inp, "in"⟩, { multi := false, locked := false, conns := [] }),
               (⟨"B", .out, "out"⟩, { multi := true, locked := false, conns := [] }) ] }

/-- State after `connect(A.out, B.in)`. -/
def c1After1 : GraphState :=
  (connect_to c1Graph ⟨"A", .out, "out"⟩ (some ⟨"B", .inp, "in"⟩)).2

/-- State after the subsequent `connect(B.out, A.in)`. -/
def c1After2 : GraphState :=
  (connect_to c1After1 ⟨"B", .out, "out"⟩ (some ⟨"A", .inp, "in"⟩)).2

/-- C1 evaluated at the claim's own scenario.  With `acyclic=True`,
after `connect(A.out, B.in)` succeeds, `connect(B.out, A.in)` is NOT
rejected: the cycle guard of `connect_to`
(`if graph.acyclic() and viewer.acyclic_check(...)`) fires — the
spec-modelled reachability check reports that the edge closes a cycle —
but its `return` statement sits inside `if pre_conn_port:`, and `B.out`
(a fresh multi-connection output) has no previous single-connection peer,
so control falls through to the connection code: the connect succeeds,
the state changes, and the output→input edge graph now contains the
2-cycle `A→B→A`. -/
theorem connect_to_cycle_failing_input :
    c1Graph.acyclic = true
    ∧ (connect_to c1Graph ⟨"A", .out, "out"⟩ (some ⟨"B", .inp, "in"⟩)).1 = none
    ∧ (lookupPort c1After1 ⟨"B", .inp, "in"⟩).conns = [("A", ["out"])]
    ∧ acyclicCheck c1After1 ⟨"B", .out, "out"⟩ ⟨"A", .inp, "in"⟩ = true
    ∧ (lookupPort c1After1 ⟨"B", .out, "out"⟩).conns = []
    ∧ (connect_to c1After1 ⟨"B", .out, "out"⟩ (some ⟨"A", .inp, "in"⟩)).1 = none
    ∧ (lookupPort c1After2 ⟨"B", .out, "out"⟩).conns = [("A", ["in"])]
    ∧ stateEdges c1After2 = [("A", "B"), ("B", "A")] := by
  refine ⟨rfl, by decide, by decide, by decide, by decide, by decide, by decide, by decide⟩

/-! ## Claim C7: the connection loop of deserialization -/

/-- The flattened peer list of a port model (its resolvable peers). -/
def miniPeersFlat (p : MiniPort) : List String :=
  p.conns.flatMap (fun e => e.2)

/-- C7.  For one serialized connection entry processed by the connection
loop of `_deserialize`:

* when either endpoint node or endpoint port fails to resolve, the entry
  is skipped silently (the state, including the callback record, is
  exactly unchanged);
* when both endpoints resolve, the input node's connection-established
  callback `on_input_connected` is invoked for the entry regardless of
  whether the connection was established, the connection is applied
  exactly when `allowConnection` holds, and `allowConnection` holding
  implies the input port either had no existing connections or is
  declared multi-connection. -/
theorem deserialize_connection_step_spec (ds : DeserState) (pipe : SerialPipe) :
    (resolveNode ds pipe.inNode = none → deserializeConnStep ds pipe = ds)
    ∧ (resolveNode ds pipe.outNode = none → deserializeConnStep ds pipe = ds)
    ∧ (∀ aIn nIn, resolveNode ds pipe.inNode = some (aIn, nIn) →
        alGet nIn.inputs pipe.inPort = none → deserializeConnStep ds pipe = ds)
    ∧ (∀ aOut nOut, resolveNode ds pipe.outNode = some (aOut, nOut) →
        alGet nOut.outputs pipe.outPort = none → deserializeConnStep ds pipe = ds)
    ∧ (∀ aIn nIn aOut nOut inP outP,
        resolveNode ds pipe.inNode = some (aIn, nIn) →
        resolveNode ds pipe.outNode = some (aOut, nOut) →
        alGet nIn.inputs pipe.inPort = some inP →
        alGet nOut.outputs pipe.outPort = some outP →
        (deserializeConnStep ds pipe).callbacks = ds.callbacks ++ [pipe]
        ∧ (allowConnection inP = false →
            (deserializeConnStep ds pipe).nodes = ds.nodes
            ∧ (deserializeConnStep ds pipe).graphNodes = ds.graphNodes)
        ∧ (allowConnection inP = true →
            deserializeConnStep ds pipe =
              { miniPortConnectedRedo ds aIn nIn aOut nOut pipe.inPort pipe.outPort with
                callbacks := ds.callbacks ++ [pipe] })
        ∧ (allowConnection inP = true → miniPeersFlat inP = [] ∨ inP.multi = true)) := by
  refine ⟨?_, ?_, ?_, ?_, ?_⟩
  · intro h
    simp [deserializeConnStep, h]
  · intro h
    cases hin : resolveNode ds pipe.inNode with
    | none => simp [deserializeConnStep, hin]
    | some a =>
        obtain ⟨aIn, nIn⟩ := a
        simp [deserializeConnStep, hin, h]
  · intro aIn nIn hin hport
    cases hout : resolveNode ds pipe.outNode with
    | none => simp [deserializeConnStep, hin, hout]
    | some b =>
        obtain ⟨aOut, nOut⟩ := b
        cases hop : alGet nOut.outputs pipe.outPort with
        | none => simp [deserializeConnStep, hin, hout, hport, hop]
        | some outP => simp [deserializeConnStep, hin, hout, hport, hop]
  · intro aOut nOut hout hport
    cases hin : resolveNode ds pipe.inNode with
    | none => simp [deserializeConnStep, hin]
    | some a =>
        obtain ⟨aIn, nIn⟩ := a
        cases hip : alGet nIn.inputs pipe.inPort with
        | none => simp [deserializeConnStep, hin, hout, hip]
        | some inP => simp [deserializeConnStep, hin, hout, hip, hport]
  · intro aIn nIn aOut nOut inP outP hin hout hip hop
    have hstep : deserializeConnStep ds pipe =
        (let ds1 :=
          if allowConnection inP then
            miniPortConnectedRedo ds aIn nIn aOut nOut pipe.inPort pipe.outPort
          else ds
        { ds1 with callbacks := ds1.callbacks ++ [pipe] }) := by
      simp [deserializeConnStep, hin, hout, hip, hop]
    have hcb : (miniPortConnectedRedo ds aIn nIn aOut nOut pipe.inPort pipe.outPort).callbacks
        = ds.callbacks := by
      unfold miniPortConnectedRedo updateAnchored
      cases aIn <;> cases aOut <;> rfl
    refine ⟨?_, ?_, ?_, ?_⟩
    · rw [hstep]
      by_cases hallow : allowConnection inP = true
      · simp only [hallow, if_pos rfl]
        simp [hcb]
      · have hfalse : allowConnection inP = false := by
          cases hx : allowConnection inP
          · rfl
          · exact absurd hx hallow
        simp only [hfalse]
        simp
    · intro hfalse
      rw [hstep]
      simp only [hfalse]
      simp
    · intro htrue
      rw [hstep]
      simp only [htrue, if_pos rfl]
      simp [hcb]
    · intro htrue
      unfold allowConnection at htrue
      by_cases hm : inP.multi = true
      · exact Or.inr hm
      · left
        have hdt : pyDictTruthy inP.conns = false := by
          cases hx : pyDictTruthy inP.conns
          · rfl
          · rw [hx] at htrue
            simp at htrue
            exact absurd htrue hm
        unfold pyDictTruthy at hdt
        have hempty : inP.conns = [] := by
          cases hc : inP.conns with
          | nil => rfl
          | cons a l =>
              rw [hc] at hdt
              simp at hdt
        unfold miniPeersFlat
        rw [hempty]
        rfl

/-- Witness for `deserialize_connection_step_spec`: the skip conjunct at
an empty state (nothing resolves), giving an unchanged state. -/
theorem deserialize_connection_step_spec_witness :
    resolveNode ⟨[], [], []⟩ "A" = none
    ∧ deserializeConnStep ⟨[], [], []⟩ ⟨"A", "in", "B", "out"⟩ = ⟨[], [], []⟩ :=
  ⟨rfl, (deserialize_connection_step_spec ⟨[], [], []⟩ ⟨"A", "in", "B", "out"⟩).1 rfl⟩

/-! ## Claim C2: the serialize/deserialize round trip -/

/-- The freshly-constructed node model of the registered class
`"demo.Node"`: the value `create_node_instance` yields (all pydantic
defaults; one input, one output, one declared custom property). -/
def c2Template : MiniNode :=
  { dtype := "demo.Node", name := "node", id := "t0", borderColor := (74, 84, 85, 255),
    textColor := (255, 255, 255, 180), disabled := false, selected := false,
    width := 100, height := 80, pos := [0, 0], layoutDirection := 0, visible := true,
    inputs := [("in", { multi := false, displayName := true, locked := false, conns := [] })],
    outputs := [("out", { multi := true, displayName := true, locked := false, conns := [] })],
    portDeletionAllowed := false,
    custom := [("cp", .pyint 1)] }

/-- The failing input graph for the round-trip contract: one node of the
registered class whose `name` was changed to `"foo"`, whose `disabled`
property is `true` and whose custom property `"cp"` is `7`; no
connections. -/
def c2Node : MiniNode :=
  { c2Template with name := "foo", id := "n1", disabled := true, custom := [("cp", .pyint 7)] }

/-- The graph settings the failing graph is serialized with. -/
def c2Settings : MiniGraphSettings :=
  { layoutDirection := 0, acyclic := true, pipeCollision := false, pipeSlicing := true,
    pipeStyle := 1, acceptTab := [], rejectTab := [] }

/-- `serialize([c2Node])`. -/
def c2Doc : SessionDoc :=
  serializeNodes c2Settings [c2Node]

/-- `deserialize(serialize([c2Node]))` into a fresh (empty) graph. -/
def c2Result : Except String (MiniGraphSettings × DeserState) :=
  deserializeSession [("demo.Node", c2Template)] [] c2Settings c2Doc 100 80

/-- The node models produced by the round trip. -/
def c2ResultNodes : List MiniNode :=
  match c2Result with
  | .ok (_, ds) => ds.nodes.map Prod.snd
  | .error _ => []

/-- Whether the round trip raised. -/
def c2ResultOk : Bool :=
  match c2Result with
  | .ok _ => true
  | .error _ => false

/-- Projection of a `PyVal` integer (decidable comparisons for the
round-trip statement). -/
def pyIntVal : PyVal → Option Int
  | .pyint n => some n
  | _ => none

/-- C2 evaluated at the failing input.  The round trip raises nothing and
reproduces the node count (1), the name (restored through the
`NODE_NAME` attribute and `add_node`, not through `set_property`), the
custom property value, and the (empty) connection set — but NOT the
per-node default property values: the serialized document records
`disabled = true`, yet the deserialized node has `disabled = false`,
because `NodeModel.set_property` writes into the fresh dict returned by
the `properties` getter and leaves the model unchanged.  So
`deserialize(serialize(G))` does not reproduce the per-node property
values and the claim fails on the code. -/
theorem roundtrip_property_loss_failing_input :
    c2Node.disabled = true
    ∧ alGet ((alGet c2Doc.nodes "n1").getD []) "disabled" = some (.pybool true)
    ∧ c2Doc.connections = []
    ∧ c2ResultOk = true
    ∧ c2ResultNodes.length = 1
    ∧ c2ResultNodes.map (fun n => n.name) = ["foo"]
    ∧ c2ResultNodes.map (fun n => n.custom.map (fun e => (e.1, pyIntVal e.2)))
        = [[("cp", some 7)]]
    ∧ c2ResultNodes.map (fun n => n.disabled) = [false] := by
  refine ⟨rfl, by rfl, by decide, by rfl, by decide, by decide, by decide, by decide⟩

/-! ## Claim C3: symmetry of the peer bookkeeping -/

/-- Multiplicity of the peer entry for port `b` inside a port state:
how often `b.name` occurs in `connected_ports[b.nodeId]`. -/
def countIn (ps : PortState) (b : PortKey) : Nat :=
  ((alGet ps.conns b.nodeId).getD []).count b.name

/-- Multiplicity of the peer entry for `b` on port `a` in the graph. -/
def peerEntryCount (g : GraphState) (a b : PortKey) : Nat :=
  countIn (lookupPort g a) b

/-- Port `a` lists `(b.nodeId, b.name)` among its connected peers. -/
def listedPeer (g : GraphState) (a b : PortKey) : Prop :=
  b.name ∈ (alGet (lookupPort g a).conns b.nodeId).getD []

/-- The symmetry invariant on peer bookkeeping: for every pair of
opposite-direction ports, each side's entry multiplicity for the other
matches. -/
def SymState (g : GraphState) : Prop :=
  ∀ a b : PortKey, b.dir = a.dir.opposite → peerEntryCount g a b = peerEntryCount g b a

theorem lookupPort_updatePort (g : GraphState) (k k2 : PortKey) (f : PortState → PortState) :
    lookupPort (updatePort g k f) k2
      = if k2 = k then f (lookupPort g k) else lookupPort g k2 := by
  unfold lookupPort updatePort
  simp only [alGet_alUpdate]
  by_cases h : k2 = k <;> simp [h]

theorem lookupPort_double (g : GraphState) (s t : PortKey) (f1 f2 : PortState → PortState)
    (a : PortKey) :
    lookupPort (updatePort (updatePort g s f1) t f2) a
      = if a = t then f2 (if t = s then f1 (lookupPort g s) else lookupPort g t)
        else if a = s then f1 (lookupPort g a) else lookupPort g a := by
  rw [lookupPort_updatePort]
  by_cases h : a = t
  · subst h
    rw [if_pos rfl, if_pos rfl, lookupPort_updatePort]
  · rw [if_neg h, if_neg h, lookupPort_updatePort]
    by_cases h2 : a = s
    · subst h2
      simp
    · simp [h2]

theorem countIn_appendConn (ps : PortState) (nid nm : String) (b : PortKey) :
    countIn (appendConn ps nid nm) b
      = countIn ps b + (if b.nodeId = nid ∧ b.name = nm then 1 else 0) := by
  unfold countIn appendConn
  simp only [alGet_alUpdate]
  by_cases h : b.nodeId = nid
  · rw [if_pos h]
    simp only [Option.getD_some, List.count_append]
    by_cases h2 : b.name = nm
    · simp [h, h2, List.count_cons]
    · have : (nm == b.name) = false := by
        simp
        intro hc
        exact h2 hc.symm
      simp [h, h2, List.count_cons, this]
  · rw [if_neg h]
    simp [h]

theorem countIn_removeConnSide (ps : PortState) (nid nm : String) (b : PortKey) :
    countIn (removeConnSide ps nid nm) b
      = countIn ps b - (if b.nodeId = nid ∧ b.name = nm then 1 else 0) := by
  have hrm : removeConnSide ps nid nm =
      (match alGet ps.conns nid with
       | none => ps
       | some l =>
           if !l.isEmpty && nm ∈ l then
             { ps with conns := alSet ps.conns nid (l.erase nm) }
           else ps) := by
    unfold removeConnSide
    simp [pyIsFreshEmptyList]
  rw [hrm]
  cases hpn : alGet ps.conns nid with
  | none =>
      simp only [hpn]
      by_cases h : b.nodeId = nid
      · subst h
        have hz : countIn ps b = 0 := by
          unfold countIn
          rw [hpn]
          rfl
        rw [hz]
        simp
      · simp [h]
  | some l =>
      simp only [hpn]
      by_cases hg : (!l.isEmpty && decide (nm ∈ l)) = true
      · rw [if_pos hg]
        unfold countIn
        simp only [alGet_alSet]
        by_cases h : b.nodeId = nid
        · subst h
          rw [if_pos rfl, hpn]
          simp only [Option.getD_some]
          by_cases h2 : b.name = nm
          · subst h2
            simp [List.count_erase_self]
          · rw [List.count_erase_of_ne h2]
            simp [h2]
        · rw [if_neg h]
          simp [h]
      · rw [if_neg hg]
        have hz : l = [] ∨ nm ∉ l := by
          by_cases he : l = []
          · exact Or.inl he
          · right
            intro hmem
            apply hg
            have h1 : l.isEmpty = false := by
              cases l with
              | nil => exact absurd rfl he
              | cons x xs => rfl
            simp [h1, hmem]
        by_cases h : b.nodeId = nid
        · subst h
          by_cases h2 : b.name = nm
          · subst h2
            have hc : countIn ps b = 0 := by
              unfold countIn
              rw [hpn]
              simp only [Option.getD_some]
              rcases hz with h3 | h3
              · subst h3
                rfl
              · rw [List.count_eq_zero]
                exact h3
            rw [hc]
            simp
          · simp [h2]
        · simp [h]

theorem peerEntryCount_connectCmd (g : GraphState) (s t a b : PortKey) :
    peerEntryCount (portConnectedCmdRedo g s t) a b
      = peerEntryCount g a b
        + (if a = s ∧ b.nodeId = t.nodeId ∧ b.name = t.name then 1 else 0)
        + (if a = t ∧ b.nodeId = s.nodeId ∧ b.name = s.name then 1 else 0) := by
  unfold portConnectedCmdRedo peerEntryCount
  rw [lookupPort_double]
  by_cases hat : a = t
  · subst hat
    rw [if_pos rfl]
    by_cases hts : a = s
    · subst hts
      rw [if_pos rfl, countIn_appendConn, countIn_appendConn]
      by_cases hc : b.nodeId = a.nodeId ∧ b.name = a.name <;> simp [hc]
    · rw [if_neg hts, countIn_appendConn]
      by_cases hc : b.nodeId = s.nodeId ∧ b.name = s.name <;> simp [hts, hc]
  · rw [if_neg hat]
    by_cases has : a = s
    · subst has
      rw [if_pos rfl, countIn_appendConn]
      by_cases hc : b.nodeId = t.nodeId ∧ b.name = t.name <;> simp [hat, hc]
    · rw [if_neg has]
      simp [hat, has]

theorem peerEntryCount_disconnectCmd (g : GraphState) (s t a b : PortKey) :
    peerEntryCount (portDisconnectedCmdRedo g s t) a b
      = peerEntryCount g a b
        - (if a = s ∧ b.nodeId = t.nodeId ∧ b.name = t.name then 1 else 0)
        - (if a = t ∧ b.nodeId = s.nodeId ∧ b.name = s.name then 1 else 0) := by
  unfold portDisconnectedCmdRedo peerEntryCount
  rw [lookupPort_double]
  by_cases hat : a = t
  · subst hat
    rw [if_pos rfl]
    by_cases hts : a = s
    · subst hts
      rw [if_pos rfl, countIn_removeConnSide, countIn_removeConnSide]
      by_cases hc : b.nodeId = a.nodeId ∧ b.name = a.name <;> simp [hc]
    · rw [if_neg hts, countIn_removeConnSide]
      by_cases hc : b.nodeId = s.nodeId ∧ b.name = s.name <;> simp [hts, hc]
  · rw [if_neg hat]
    by_cases has : a = s
    · subst has
      rw [if_pos rfl, countIn_removeConnSide]
      by_cases hc : b.nodeId = t.nodeId ∧ b.name = t.name <;> simp [hat, hc]
    · rw [if_neg has]
      simp [hat, has]

theorem PortDir.opposite_opposite (d : PortDir) : d.opposite.opposite = d := by
  cases d <;> rfl

/-- The two peer-entry deltas of a symmetric-pair mutation coincide under
the direction constraints: the entry `(t.nodeId, t.name)` written on `a`
concerns exactly the pair `(b, a)` entry `(s.nodeId, s.name)` written on
`b`. -/
theorem delta_iff (s t a b : PortKey) (hdir : t.dir = s.dir.opposite)
    (hab : b.dir = a.dir.opposite) :
    (a = s ∧ b.nodeId = t.nodeId ∧ b.name = t.name)
      ↔ (b = t ∧ a.nodeId = s.nodeId ∧ a.name = s.name) := by
  obtain ⟨sn, sd, sm⟩ := s
  obtain ⟨tn, td, tm⟩ := t
  obtain ⟨an, ad, am⟩ := a
  obtain ⟨bn, bd, bm⟩ := b
  simp only [PortKey.mk.injEq] at hdir hab ⊢
  constructor
  · rintro ⟨⟨h1, h2, h3⟩, h4, h5⟩
    subst h1; subst h2; subst h3
    refine ⟨⟨h4, ?_, h5⟩, rfl, rfl⟩
    rw [hab, hdir]
  · rintro ⟨⟨h1, h2, h3⟩, h4, h5⟩
    subst h1; subst h2; subst h3
    refine ⟨⟨h4, ?_, h5⟩, rfl, rfl⟩
    have : ad = bd.opposite := by
      rw [hab, PortDir.opposite_opposite]
    rw [this, hdir, PortDir.opposite_opposite]

/-- C3.  The peer bookkeeping is kept symmetric: starting from any state
where for every opposite-direction port pair the two sides' peer-entry
multiplicities agree, each of the four elementary mutations —
`PortConnectedCmd.redo`, `PortDisconnectedCmd.redo`, and their undo
counterparts — applied to an output/input pair preserves that agreement
(both sides are updated together); and in a symmetric state, port P on
node A lists `(B, q)` exactly when port q on node B lists
`(A, P.name)`. -/
theorem peer_symmetry_preserved (g : GraphState) (s t : PortKey)
    (hdir : t.dir = s.dir.opposite) (hsym : SymState g) :
    SymState (portConnectedCmdRedo g s t)
    ∧ SymState (portDisconnectedCmdRedo g s t)
    ∧ SymState (portConnectedCmdUndo g s t)
    ∧ SymState (portDisconnectedCmdUndo g s t)
    ∧ (∀ a b : PortKey, b.dir = a.dir.opposite → (listedPeer g a b ↔ listedPeer g b a)) := by
  have hdir2 : s.dir = t.dir.opposite := by
    rw [hdir, PortDir.opposite_opposite]
  have hconn : SymState (portConnectedCmdRedo g s t) := by
    intro a b hab
    have hba : a.dir = b.dir.opposite := by
      rw [hab, PortDir.opposite_opposite]
    rw [peerEntryCount_connectCmd, peerEntryCount_connectCmd,
      if_congr (delta_iff s t a b hdir hab) rfl rfl,
      if_congr (delta_iff t s a b hdir2 hab) rfl rfl,
      hsym a b hab]
    omega
  have hdisc : SymState (portDisconnectedCmdRedo g s t) := by
    intro a b hab
    rw [peerEntryCount_disconnectCmd, peerEntryCount_disconnectCmd,
      if_congr (delta_iff s t a b hdir hab) rfl rfl,
      if_congr (delta_iff t s a b hdir2 hab) rfl rfl,
      hsym a b hab]
    omega
  refine ⟨hconn, hdisc, hdisc, hconn, ?_⟩
  intro a b hab
  have hcnt := hsym a b hab
  unfold peerEntryCount countIn at hcnt
  unfold listedPeer
  constructor
  · intro hmem
    have h1 : 0 < ((alGet (lookupPort g a).conns b.nodeId).getD []).count b.name :=
      List.count_pos_iff.mpr hmem
    rw [hcnt] at h1
    exact List.count_pos_iff.mp h1
  · intro hmem
    have h1 : 0 < ((alGet (lookupPort g b).conns a.nodeId).getD []).count a.name :=
      List.count_pos_iff.mpr hmem
    rw [← hcnt] at h1
    exact List.count_pos_iff.mp h1

/-- Witness for `peer_symmetry_preserved`: the empty graph state is
symmetric, and the preservation theorem applies to it for the concrete
output/input pair. -/
theorem peer_symmetry_preserved_witness :
    ((⟨"B", .inp, "in"⟩ : PortKey).dir = (⟨"A", .out, "out"⟩ : PortKey).dir.opposite)
    ∧ SymState (portConnectedCmdRedo ⟨true, [], [], [], []⟩
        ⟨"A", .out, "out"⟩ ⟨"B", .inp, "in"⟩) := by
  refine ⟨by decide, ?_⟩
  exact (peer_symmetry_preserved ⟨true, [], [], [], []⟩ ⟨"A", .out, "out"⟩ ⟨"B", .inp, "in"⟩
    (by decide) (fun a b _ => rfl)).1

/-! ## Claim C4: single-connection replacement -/

/-- Total number of peer entries of a port (counting multiplicity): the
sum of the name-list lengths of `connected_ports`. -/
def totalPeers (ps : PortState) : Nat :=
  (ps.conns.map (fun e => e.2.length)).sum

/-- The single-connection invariant: a port with
`multi_connection=False` holds at most one peer entry. -/
def SingleConnInvariant (g : GraphState) : Prop :=
  ∀ k : PortKey, (lookupPort g k).multi = false → totalPeers (lookupPort g k) ≤ 1

/-- Each port's `connected_ports` has pairwise-distinct node-id keys (as
a Python dict always does). -/
def WFConnKeys (g : GraphState) : Prop :=
  ∀ k : PortKey, ((lookupPort g k).conns.map Prod.fst).Nodup

theorem alGet_eq_none_of_not_mem {κ α : Type} [BEq κ] [LawfulBEq κ] (m : List (κ × α))
    (k : κ) (h : k ∉ m.map Prod.fst) : alGet m k = none := by
  induction m with
  | nil => rfl
  | cons e rest ih =>
      simp only [List.map_cons, List.mem_cons] at h
      push_neg at h
      have hbe : (e.1 == k) = false := by
        simp
        intro hc
        exact h.1 hc.symm
      simp [alGet, hbe, ih h.2]

theorem alUpdate_keys {κ α : Type} [BEq κ] [LawfulBEq κ] (m : List (κ × α)) (k : κ)
    (f : α → α) (d : α) :
    (alUpdate m k f d).map Prod.fst
      = if (alGet m k).isSome then m.map Prod.fst else m.map Prod.fst ++ [k] := by
  induction m with
  | nil => simp [alUpdate, alGet]
  | cons e rest ih =>
      by_cases hek : (e.1 == k) = true
      · have he : e.1 = k := eq_of_beq hek
        simp [alUpdate, alGet, hek, he]
      · have hbe : (e.1 == k) = false := by
          cases hx : e.1 == k
          · rfl
          · exact absurd hx hek
        simp only [alUpdate, hbe, Bool.false_eq_true, if_false, List.map_cons, alGet]
        rw [ih]
        by_cases hs : (alGet rest k).isSome <;> simp [hs]

/-- The dead `del` branch eliminated: `removeConnSide` reduces to a
case split on the fetched peer list. -/
theorem removeConnSide_eq (ps : PortState) (nid nm : String) :
    removeConnSide ps nid nm =
      (match alGet ps.conns nid with
       | none => ps
       | some l =>
           if !l.isEmpty && nm ∈ l then
             { ps with conns := alSet ps.conns nid (l.erase nm) }
           else ps) := by
  unfold removeConnSide
  simp [pyIsFreshEmptyList]

/-- `removeConnSide` never deletes a node-id key: the key maps of
`connected_ports` are exactly preserved. -/
theorem removeConnSide_keys (ps : PortState) (nid nm : String) :
    (removeConnSide ps nid nm).conns.map Prod.fst = ps.conns.map Prod.fst := by
  rw [removeConnSide_eq]
  cases hpn : alGet ps.conns nid with
  | none => rfl
  | some l =>
      by_cases hg : (!l.isEmpty && decide (nm ∈ l)) = true
      · simp only [hg, if_pos rfl]
        exact alSet_keys_of_present ps.conns nid _ l hpn
      · simp only [hg]
        simp

theorem removeConnSide_multi (ps : PortState) (nid nm : String) :
    (removeConnSide ps nid nm).multi = ps.multi := by
  rw [removeConnSide_eq]
  cases hpn : alGet ps.conns nid with
  | none => rfl
  | some l =>
      by_cases hg : (!l.isEmpty && decide (nm ∈ l)) = true
      · simp [hg]
      · simp [hg]

theorem appendConn_multi (ps : PortState) (nid nm : String) :
    (appendConn ps nid nm).multi = ps.multi := rfl

theorem totalPeers_appendConn (ps : PortState) (nid nm : String) :
    totalPeers (appendConn ps nid nm) = totalPeers ps + 1 := by
  unfold totalPeers appendConn
  simp only
  induction ps.conns with
  | nil => simp [alUpdate]
  | cons e rest ih =>
      by_cases hek : (e.1 == nid) = true
      · simp [alUpdate, hek]
        omega
      · have hbe : (e.1 == nid) = false := by
          cases hx : e.1 == nid
          · rfl
          · exact absurd hx hek
        simp only [alUpdate, hbe, Bool.false_eq_true, if_false, List.map_cons, List.sum_cons]
        rw [ih]
        omega

theorem sumLen_alSet_present (c : List (String × List String)) (nid : String)
    (l v : List String) (h : alGet c nid = some l) :
    ((alSet c nid v).map (fun e => e.2.length)).sum + l.length
      = (c.map (fun e => e.2.length)).sum + v.length := by
  induction c with
  | nil => simp [alGet] at h
  | cons e rest ih =>
      by_cases hek : (e.1 == nid) = true
      · have he2 : e.2 = l := by
          simpa [alGet, hek] using h
        subst he2
        simp [alSet, hek]
        omega
      · have hbe : (e.1 == nid) = false := by
          cases hx : e.1 == nid
          · rfl
          · exact absurd hx hek
        simp only [alGet, hbe, Bool.false_eq_true, if_false] at h
        simp only [alSet, hbe, Bool.false_eq_true, if_false, List.map_cons, List.sum_cons]
        have := ih h
        omega

theorem totalPeers_removeConnSide (ps : PortState) (nid nm : String) :
    totalPeers (removeConnSide ps nid nm)
      = totalPeers ps - (if nm ∈ (alGet ps.conns nid).getD [] then 1 else 0) := by
  rw [removeConnSide_eq]
  cases hpn : alGet ps.conns nid with
  | none => simp
  | some l =>
      by_cases hg : (!l.isEmpty && decide (nm ∈ l)) = true
      · have hmem : nm ∈ l := of_decide_eq_true ((Bool.and_eq_true _ _).mp hg).2
        simp only [Option.getD_some]
        rw [if_pos hg, if_pos hmem]
        unfold totalPeers
        dsimp only
        have hsum := sumLen_alSet_present ps.conns nid l (l.erase nm) hpn
        have hlen : (l.erase nm).length = l.length - 1 := List.length_erase_of_mem hmem
        have hpos : 1 ≤ l.length := List.length_pos.mpr (List.ne_nil_of_mem hmem)
        omega
      · have hnm : nm ∉ l ∨ l = [] := by
          by_cases he : l = []
          · exact Or.inr he
          · left
            intro hmem
            apply hg
            have h1 : l.isEmpty = false := by
              cases l with
              | nil => exact absurd rfl he
              | cons x xs => rfl
            simp [h1, hmem]
        simp only [hg, Option.getD_some]
        rcases hnm with h1 | h1
        · simp [h1]
        · subst h1
          simp

theorem totalPeers_connectCmd (g : GraphState) (s t k : PortKey) :
    totalPeers (lookupPort (portConnectedCmdRedo g s t) k)
      = totalPeers (lookupPort g k)
        + (if k = s then 1 else 0) + (if k = t then 1 else 0) := by
  unfold portConnectedCmdRedo
  rw [lookupPort_double]
  by_cases hkt : k = t
  · subst hkt
    rw [if_pos rfl]
    by_cases hts : k = s
    · subst hts
      rw [if_pos rfl, totalPeers_appendConn, totalPeers_appendConn]
      simp
    · rw [if_neg hts, totalPeers_appendConn]
      simp [hts]
  · rw [if_neg hkt]
    by_cases hks : k = s
    · subst hks
      rw [if_pos rfl, totalPeers_appendConn]
      simp [hkt]
    · rw [if_neg hks]
      simp [hkt, hks]

theorem totalPeers_disconnectCmd_le (g : GraphState) (s t k : PortKey) :
    totalPeers (lookupPort (portDisconnectedCmdRedo g s t) k)
      ≤ totalPeers (lookupPort g k) := by
  unfold portDisconnectedCmdRedo
  rw [lookupPort_double]
  by_cases hkt : k = t
  · subst hkt
    rw [if_pos rfl]
    by_cases hts : k = s
    · subst hts
      rw [if_pos rfl, totalPeers_removeConnSide, totalPeers_removeConnSide]
      omega
    · rw [if_neg hts, totalPeers_removeConnSide]
      omega
  · rw [if_neg hkt]
    by_cases hks : k = s
    · subst hks
      rw [if_pos rfl, totalPeers_removeConnSide]
      omega
    · rw [if_neg hks]

theorem totalPeers_disconnectCmd_src (g : GraphState) (s t : PortKey)
    (hmem : t.name ∈ (alGet (lookupPort g s).conns t.nodeId).getD []) :
    totalPeers (lookupPort (portDisconnectedCmdRedo g s t) s)
      ≤ totalPeers (lookupPort g s) - 1 := by
  unfold portDisconnectedCmdRedo
  rw [lookupPort_double]
  by_cases hst : s = t
  · subst hst
    rw [if_pos rfl, if_pos rfl, totalPeers_removeConnSide, totalPeers_removeConnSide,
      if_pos hmem]
    omega
  · rw [if_neg hst, if_pos rfl, totalPeers_removeConnSide, if_pos hmem]

theorem lookupPort_disconnectCmd_other (g : GraphState) (s t k : PortKey)
    (hks : k ≠ s) (hkt : k ≠ t) :
    lookupPort (portDisconnectedCmdRedo g s t) k = lookupPort g k := by
  unfold portDisconnectedCmdRedo
  rw [lookupPort_double, if_neg hkt, if_neg hks]

theorem multi_disconnectCmd (g : GraphState) (s t k : PortKey) :
    (lookupPort (portDisconnectedCmdRedo g s t) k).multi = (lookupPort g k).multi := by
  unfold portDisconnectedCmdRedo
  rw [lookupPort_double]
  by_cases hkt : k = t
  · subst hkt
    rw [if_pos rfl]
    by_cases hts : k = s
    · subst hts
      rw [if_pos rfl, removeConnSide_multi, removeConnSide_multi]
    · rw [if_neg hts, removeConnSide_multi]
  · rw [if_neg hkt]
    by_cases hks : k = s
    · subst hks
      rw [if_pos rfl, removeConnSide_multi]
    · rw [if_neg hks]

theorem multi_connectCmd (g : GraphState) (s t k : PortKey) :
    (lookupPort (portConnectedCmdRedo g s t) k).multi = (lookupPort g k).multi := by
  unfold portConnectedCmdRedo
  rw [lookupPort_double]
  by_cases hkt : k = t
  · subst hkt
    rw [if_pos rfl]
    by_cases hts : k = s
    · subst hts
      rw [if_pos rfl, appendConn_multi, appendConn_multi]
    · rw [if_neg hts, appendConn_multi]
  · rw [if_neg hkt]
    by_cases hks : k = s
    · subst hks
      rw [if_pos rfl, appendConn_multi]
    · rw [if_neg hks]

theorem flatMap_peers_length (k : PortKey) (c : List (String × List String)) :
    (c.flatMap (fun e => e.2.map (fun nm => PortKey.mk e.1 k.dir.opposite nm))).length
      = (c.map (fun e => e.2.length)).sum := by
  induction c with
  | nil => rfl
  | cons e rest ih => simp [ih]

theorem peers_length_eq_total (k : PortKey) (ps : PortState) :
    (connectedPeerKeys k ps).length = totalPeers ps :=
  flatMap_peers_length k ps.conns

theorem alGet_isSome_of_mem {κ α : Type} [BEq κ] [LawfulBEq κ] (m : List (κ × α))
    (k : κ) (h : k ∈ m.map Prod.fst) : (alGet m k).isSome := by
  induction m with
  | nil => simp at h
  | cons e rest ih =>
      by_cases hek : (e.1 == k) = true
      · simp [alGet, hek]
      · have hbe : (e.1 == k) = false := by
          cases hx : e.1 == k
          · rfl
          · exact absurd hx hek
        simp only [List.map_cons, List.mem_cons] at h
        rcases h with h | h
        · rw [h] at hbe
          simp at hbe
        · simp only [alGet, hbe, Bool.false_eq_true, if_false]
          exact ih h

/-- The first element of `get_connected_ports` designates a peer entry
genuinely present in `connected_ports` (keys being distinct, the lookup
lands on the entry the element came from). -/
theorem head_peer_mem_aux (k : PortKey) (c : List (String × List String))
    (hnd : (c.map Prod.fst).Nodup) (p : PortKey) (rest : List PortKey)
    (h : c.flatMap (fun e => e.2.map (fun nm => PortKey.mk e.1 k.dir.opposite nm))
      = p :: rest) :
    p.name ∈ (alGet c p.nodeId).getD [] := by
  induction c generalizing rest with
  | nil => simp at h
  | cons e cs ih =>
      simp only [List.flatMap_cons] at h
      cases hnames : e.2 with
      | nil =>
          rw [hnames] at h
          simp only [List.map_nil, List.nil_append] at h
          rw [List.map_cons] at hnd
          have hnd2 : (cs.map Prod.fst).Nodup := (List.nodup_cons.mp hnd).2
          have hmem := ih hnd2 rest h
          have hsome : (alGet cs p.nodeId).isSome := by
            cases hx : alGet cs p.nodeId
            · rw [hx] at hmem
              simp at hmem
            · simp
          have hkey : p.nodeId ∈ cs.map Prod.fst := by
            by_contra hnotin
            rw [alGet_eq_none_of_not_mem cs p.nodeId hnotin] at hsome
            simp at hsome
          have hne : e.1 ≠ p.nodeId := by
            intro hEq
            have := (List.nodup_cons.mp hnd).1
            rw [hEq] at this
            exact this hkey
          have hbe : (e.1 == p.nodeId) = false := by simp [hne]
          simpa [alGet, hbe] using hmem
      | cons nm nms =>
          rw [hnames] at h
          simp only [List.map_cons, List.cons_append, List.cons.injEq] at h
          obtain ⟨hp, _⟩ := h
          subst hp
          simp [alGet, hnames]

theorem head_peer_mem (k : PortKey) (ps : PortState)
    (hnd : (ps.conns.map Prod.fst).Nodup) (p : PortKey) (rest : List PortKey)
    (h : connectedPeerKeys k ps = p :: rest) :
    p.name ∈ (alGet ps.conns p.nodeId).getD [] :=
  head_peer_mem_aux k ps.conns hnd p rest h

theorem WF_appendConn (ps : PortState) (nid nm : String)
    (h : (ps.conns.map Prod.fst).Nodup) :
    ((appendConn ps nid nm).conns.map Prod.fst).Nodup := by
  unfold appendConn
  dsimp only
  rw [alUpdate_keys]
  by_cases hs : (alGet ps.conns nid).isSome
  · simp [hs, h]
  · have hnotin : nid ∉ ps.conns.map Prod.fst := by
      intro hmem
      exact hs (alGet_isSome_of_mem ps.conns nid hmem)
    simp [hs, List.nodup_append, h, hnotin]

theorem WF_connectCmd (g : GraphState) (s t : PortKey) (h : WFConnKeys g) :
    WFConnKeys (portConnectedCmdRedo g s t) := by
  intro k
  unfold portConnectedCmdRedo
  rw [lookupPort_double]
  by_cases hkt : k = t
  · subst hkt
    rw [if_pos rfl]
    by_cases hts : k = s
    · subst hts
      rw [if_pos rfl]
      exact WF_appendConn _ _ _ (WF_appendConn _ _ _ (h k))
    · rw [if_neg hts]
      exact WF_appendConn _ _ _ (h k)
  · rw [if_neg hkt]
    by_cases hks : k = s
    · subst hks
      rw [if_pos rfl]
      exact WF_appendConn _ _ _ (h k)
    · rw [if_neg hks]
      exact h k

theorem WF_removeConnSide (ps : PortState) (nid nm : String)
    (h : (ps.conns.map Prod.fst).Nodup) :
    ((removeConnSide ps nid nm).conns.map Prod.fst).Nodup := by
  rw [removeConnSide_keys]
  exact h

theorem WF_disconnectCmd (g : GraphState) (s t : PortKey) (h : WFConnKeys g) :
    WFConnKeys (portDisconnectedCmdRedo g s t) := by
  intro k
  unfold portDisconnectedCmdRedo
  rw [lookupPort_double]
  by_cases hkt : k = t
  · subst hkt
    rw [if_pos rfl]
    by_cases hts : k = s
    · subst hts
      rw [if_pos rfl]
      exact WF_removeConnSide _ _ _ (WF_removeConnSide _ _ _ (h k))
    · rw [if_neg hts]
      exact WF_removeConnSide _ _ _ (h k)
  · rw [if_neg hkt]
    by_cases hks : k = s
    · subst hks
      rw [if_pos rfl]
      exact WF_removeConnSide _ _ _ (h k)
    · rw [if_neg hks]
      exact h k


/-- `connectMain` unfolded: one connect command on top of the optional
target-side and self-side disconnect commands. -/
theorem connectMain_eq (g : GraphState) (s t : PortKey) (pre? : Option PortKey) :
    connectMain g s t pre? =
      (none,
       portConnectedCmdRedo
         (match pre? with
          | some pre => portDisconnectedCmdRedo
              (match (lookupPort g t).multi, connectedPeerKeys t (lookupPort g t) with
               | false, dettached :: _ => portDisconnectedCmdRedo g t dettached
               | _, _ => g) s pre
          | none =>
              match (lookupPort g t).multi, connectedPeerKeys t (lookupPort g t) with
              | false, dettached :: _ => portDisconnectedCmdRedo g t dettached
              | _, _ => g) s t) := rfl

/-- A peer-entry removal never breaks the single-connection invariant. -/
theorem SC_disconnectCmd (g : GraphState) (s t : PortKey) (hsc : SingleConnInvariant g) :
    SingleConnInvariant (portDisconnectedCmdRedo g s t) := by
  intro k hk
  rw [multi_disconnectCmd] at hk
  exact le_trans (totalPeers_disconnectCmd_le g s t k) (hsc k hk)

/-- The final `PortConnectedCmd` keeps the single-connection invariant
provided both endpoints were emptied first when single-connection. -/
theorem SC_of_connectCmd (g2 : GraphState) (s t : PortKey) (hst : s ≠ t)
    (hs : (lookupPort g2 s).multi = false → totalPeers (lookupPort g2 s) = 0)
    (ht : (lookupPort g2 t).multi = false → totalPeers (lookupPort g2 t) = 0)
    (hsc2 : SingleConnInvariant g2) :
    SingleConnInvariant (portConnectedCmdRedo g2 s t) := by
  intro k hk
  rw [multi_connectCmd] at hk
  rw [totalPeers_connectCmd]
  by_cases hks : k = s
  · subst hks
    rw [if_pos rfl, if_neg hst]
    have := hs hk
    omega
  · by_cases hkt : k = t
    · subst hkt
      rw [if_neg hks, if_pos rfl]
      have := ht hk
      omega
    · rw [if_neg hks, if_neg hkt]
      have := hsc2 k hk
      omega

/-- The connection tail of `connect_to` preserves the single-connection
invariant, given keys are well formed, the caller is not already among
the target's peers, and `pre_conn_port` was computed as in the source. -/
theorem SC_connectMain (g : GraphState) (s t : PortKey) (pre? : Option PortKey)
    (hst : s ≠ t) (hwf : WFConnKeys g) (hsc : SingleConnInvariant g)
    (hnc : s ∉ connectedPeerKeys t (lookupPort g t))
    (hpre : pre? = if (lookupPort g s).multi then none
      else (connectedPeerKeys s (lookupPort g s)).head?) :
    SingleConnInvariant (connectMain g s t pre?).2 := by
  rw [connectMain_eq]
  have hlen_t := peers_length_eq_total t (lookupPort g t)
  have hlen_s := peers_length_eq_total s (lookupPort g s)
  have hG1 : ∃ g1,
      (match (lookupPort g t).multi, connectedPeerKeys t (lookupPort g t) with
       | false, dettached :: _ => portDisconnectedCmdRedo g t dettached
       | _, _ => g) = g1
      ∧ SingleConnInvariant g1
      ∧ (∀ k, (lookupPort g1 k).multi = (lookupPort g k).multi)
      ∧ lookupPort g1 s = lookupPort g s
      ∧ ((lookupPort g t).multi = false → totalPeers (lookupPort g1 t) = 0)
      ∧ (∀ k, totalPeers (lookupPort g1 k) ≤ totalPeers (lookupPort g k)) := by
    cases hmt : (lookupPort g t).multi with
    | false =>
        cases hct : connectedPeerKeys t (lookupPort g t) with
        | nil =>
            refine ⟨g, rfl, hsc, fun k => rfl, rfl, ?_, fun k => le_refl _⟩
            intro _
            rw [hct] at hlen_t
            simpa using hlen_t.symm
        | cons p rest =>
            have hmem : p.name ∈ (alGet (lookupPort g t).conns p.nodeId).getD [] :=
              head_peer_mem t (lookupPort g t) (hwf t) p rest hct
            have hsp : s ≠ p := by
              intro he
              exact hnc (by rw [hct, he]; exact List.mem_cons_self _ _)
            refine ⟨portDisconnectedCmdRedo g t p, rfl, SC_disconnectCmd g t p hsc,
              fun k => multi_disconnectCmd g t p k,
              lookupPort_disconnectCmd_other g t p s hst hsp, ?_,
              fun k => totalPeers_disconnectCmd_le g t p k⟩
            intro _
            have htot := totalPeers_disconnectCmd_src g t p hmem
            have hle := hsc t hmt
            rw [hct] at hlen_t
            simp at hlen_t
            omega
    | true =>
        refine ⟨g, ?_, hsc, fun k => rfl, rfl, ?_, fun k => le_refl _⟩
        · rfl
        · intro h
          simp at h
  obtain ⟨g1, hg1eq, hsc1, hmul1, hlus, htz, hle1⟩ := hG1
  rw [hg1eq]
  cases pre? with
  | none =>
      refine SC_of_connectCmd g1 s t hst ?_ ?_ hsc1
      · intro hms
        rw [hlus] at hms ⊢
        have hxx : ¬((lookupPort g s).multi = true) := by simp [hms]
        rw [if_neg hxx] at hpre
        have hnil : connectedPeerKeys s (lookupPort g s) = [] :=
          List.head?_eq_none_iff.mp hpre.symm
        rw [hnil] at hlen_s
        simpa using hlen_s.symm
      · intro hmt2
        rw [hmul1 t] at hmt2
        exact htz hmt2
  | some pre =>
      have hms : (lookupPort g s).multi = false := by
        cases hx : (lookupPort g s).multi
        · rfl
        · rw [if_pos hx] at hpre
          exact absurd hpre (by simp)
      have hxx : ¬((lookupPort g s).multi = true) := by simp [hms]
      have hhd : (connectedPeerKeys s (lookupPort g s)).head? = some pre := by
        rw [if_neg hxx] at hpre
        exact hpre.symm
      have hmem_s : pre.name ∈ (alGet (lookupPort g s).conns pre.nodeId).getD [] := by
        cases hl : connectedPeerKeys s (lookupPort g s) with
        | nil => rw [hl] at hhd; simp at hhd
        | cons a r =>
            rw [hl] at hhd
            simp at hhd
            have := head_peer_mem s (lookupPort g s) (hwf s) a r hl
            rwa [hhd] at this
      have htots : totalPeers (lookupPort g s) = 1 := by
        cases hl : connectedPeerKeys s (lookupPort g s) with
        | nil => rw [hl] at hhd; simp at hhd
        | cons a r =>
            rw [hl] at hlen_s
            have h1 := hsc s hms
            simp at hlen_s
            omega
      refine SC_of_connectCmd (portDisconnectedCmdRedo g1 s pre) s t hst ?_ ?_
        (SC_disconnectCmd g1 s pre hsc1)
      · intro _
        have hmem1 : pre.name ∈ (alGet (lookupPort g1 s).conns pre.nodeId).getD [] := by
          rw [hlus]
          exact hmem_s
        have h2 := totalPeers_disconnectCmd_src g1 s pre hmem1
        rw [hlus] at h2
        omega
      · intro hmt2
        rw [multi_disconnectCmd, hmul1 t] at hmt2
        have h3 := totalPeers_disconnectCmd_le g1 s pre t
        have h4 := htz hmt2
        omega

/-- The connection tail of `connect_to` keeps association-list keys
pairwise distinct. -/
theorem WF_connectMain (g : GraphState) (s t : PortKey) (pre? : Option PortKey)
    (hwf : WFConnKeys g) : WFConnKeys (connectMain g s t pre?).2 := by
  rw [connectMain_eq]
  have hg1 : WFConnKeys
      (match (lookupPort g t).multi, connectedPeerKeys t (lookupPort g t) with
       | false, dettached :: _ => portDisconnectedCmdRedo g t dettached
       | _, _ => g) := by
    cases hmtx : (lookupPort g t).multi <;> cases hctx : connectedPeerKeys t (lookupPort g t) <;>
      first
        | exact hwf
        | exact WF_disconnectCmd _ _ _ hwf
  apply WF_connectCmd
  cases pre? with
  | none => exact hg1
  | some pre => exact WF_disconnectCmd _ _ _ hg1

/-- Every branch of `connect_to` preserves both the single-connection
invariant and key well-formedness. -/
theorem connect_to_preserves_SC_WF (g : GraphState) (s t : PortKey) (hst : s ≠ t)
    (hwf : WFConnKeys g) (hsc : SingleConnInvariant g) :
    SingleConnInvariant (connect_to g s (some t)).2
      ∧ WFConnKeys (connect_to g s (some t)).2 := by
  unfold connect_to
  dsimp only
  by_cases h1 : s ∈ connectedPeerKeys t (lookupPort g t)
  · rw [if_pos h1]
    exact ⟨hsc, hwf⟩
  · rw [if_neg h1]
    by_cases h2 : ((lookupPort g s).locked || (lookupPort g t).locked) = true
    · rw [if_pos h2]
      exact ⟨hsc, hwf⟩
    · rw [if_neg h2]
      by_cases h3 : acceptSkips g t s = true
      · rw [if_pos h3]
        exact ⟨hsc, hwf⟩
      · rw [if_neg h3]
        by_cases h4 : acceptSkips g s t = true
        · rw [if_pos h4]
          exact ⟨hsc, hwf⟩
        · rw [if_neg h4]
          by_cases h5 : rejectSkips g t s = true
          · rw [if_pos h5]
            exact ⟨hsc, hwf⟩
          · rw [if_neg h5]
            by_cases h6 : rejectSkips g s t = true
            · rw [if_pos h6]
              exact ⟨hsc, hwf⟩
            · rw [if_neg h6]
              by_cases h7 : (g.acyclic && acyclicCheck g s t) = true
              · rw [if_pos h7]
                cases hsm : (lookupPort g s).multi with
                | true =>
                    rw [if_pos rfl]
                    exact ⟨SC_connectMain g s t none hst hwf hsc h1 (by rw [if_pos hsm]),
                      WF_connectMain g s t none hwf⟩
                | false =>
                    rw [if_neg Bool.false_ne_true]
                    have hxx : ¬((lookupPort g s).multi = true) := by simp [hsm]
                    cases hhd : (connectedPeerKeys s (lookupPort g s)).head? with
                    | none =>
                        exact ⟨SC_connectMain g s t none hst hwf hsc h1
                          (by rw [if_neg hxx]; exact hhd.symm),
                          WF_connectMain g s t none hwf⟩
                    | some pre =>
                        exact ⟨SC_disconnectCmd g s pre hsc, WF_disconnectCmd g s pre hwf⟩
              · rw [if_neg h7]
                exact ⟨SC_connectMain g s t _ hst hwf hsc h1 rfl,
                  WF_connectMain g s t _ hwf⟩



/-- C4 scenario graph: source nodes `A1`, `A2` each exposing an output
created with `BaseNode.add_output` defaults (`multi_output=True`), and a
sink node `B` with an input from `BaseNode.add_input` defaults
(`multi_input=False`); no port is locked and no connection exists yet. -/
def c4Graph : GraphState :=
  { acyclic := true, nodeTypes := [("A1", "t"), ("A2", "t"), ("B", "t")],
    acceptTab := [], rejectTab := [],
    ports := [ (⟨"A1", .out, "out"⟩, { multi := true, locked := false, conns := [] }),
               (⟨"A2", .out, "out"⟩, { multi := true, locked := false, conns := [] }),
               (⟨"B", .inp, "in"⟩, { multi := false, locked := false, conns := [] }) ] }

/-- The scenario state after `connect(B.in, A1.out)`. -/
def c4After1 : GraphState :=
  (connect_to c4Graph ⟨"B", .inp, "in"⟩ (some ⟨"A1", .out, "out"⟩)).2

/-- The scenario state after the subsequent `connect(B.in, A2.out)`. -/
def c4After2 : GraphState :=
  (connect_to c4After1 ⟨"B", .inp, "in"⟩ (some ⟨"A2", .out, "out"⟩)).2

theorem c4Graph_conns_empty (k : PortKey) : (lookupPort c4Graph k).conns = [] := by
  unfold lookupPort c4Graph
  simp only [alGet]
  split_ifs <;> rfl

theorem c4Graph_wf : WFConnKeys c4Graph := by
  intro k
  rw [c4Graph_conns_empty]
  simp

theorem c4Graph_sc : SingleConnInvariant c4Graph := by
  intro k _
  unfold totalPeers
  rw [c4Graph_conns_empty]
  simp

set_option maxRecDepth 4000 in
/-- C4: when the caller port and the partner have opposite directions and
the graph's `connected_ports` maps are well formed, every `connect_to`
call preserves the invariant that a `multi_connection=False` port holds
at most one peer entry (the previous peer is disconnected before the new
connection is made); in the claim's scenario — `B.in`
(single-connection) connected to `A1.out`, then to `A2.out` — the final
state leaves `B.in` with exactly the peer `A2.out` and `A1.out` with
zero peers (its `connected_ports` keeps only the emptied `B` entry). -/
theorem single_connection_replacement (g : GraphState) (s t : PortKey)
    (hdir : t.dir = s.dir.opposite) (hwf : WFConnKeys g) (hsc : SingleConnInvariant g) :
    (SingleConnInvariant (connect_to g s (some t)).2
      ∧ WFConnKeys (connect_to g s (some t)).2)
    ∧ (connectedPeerKeys ⟨"B", .inp, "in"⟩ (lookupPort c4After2 ⟨"B", .inp, "in"⟩)
        = [⟨"A2", .out, "out"⟩]
       ∧ connectedPeerKeys ⟨"A1", .out, "out"⟩ (lookupPort c4After2 ⟨"A1", .out, "out"⟩) = []
       ∧ (lookupPort c4After2 ⟨"A1", .out, "out"⟩).conns = [("B", [])]) := by
  have hst : s ≠ t := by
    intro he
    subst he
    cases h : s.dir <;> rw [h] at hdir <;> exact absurd hdir (by decide)
  exact ⟨connect_to_preserves_SC_WF g s t hst hwf hsc, by decide, by decide, by decide⟩

set_option maxRecDepth 4000 in
theorem single_connection_replacement_witness :
    ((⟨"A1", .out, "out"⟩ : PortKey).dir = (⟨"B", .inp, "in"⟩ : PortKey).dir.opposite
      ∧ WFConnKeys c4Graph ∧ SingleConnInvariant c4Graph)
    ∧ SingleConnInvariant (connect_to c4Graph ⟨"B", .inp, "in"⟩
        (some ⟨"A1", .out, "out"⟩)).2 :=
  ⟨⟨by decide, c4Graph_wf, c4Graph_sc⟩,
   (single_connection_replacement c4Graph ⟨"B", .inp, "in"⟩ ⟨"A1", .out, "out"⟩
     (by decide) c4Graph_wf c4Graph_sc).1.1⟩


/-! ## Claim C8: auto-layout rank assignment -/

/-- A directed path in the layout graph: `PathTo g u v k` holds when `v`
is reachable from `u` in exactly `k` edge steps (each step moving to a
member of `succs`). -/
inductive PathTo (g : LayoutGraph) : String → String → Nat → Prop where
  | zero (u : String) : PathTo g u u 0
  | succ {u v w : String} {k : Nat} : v ∈ succs g u → PathTo g v w k → PathTo g u w (k + 1)

/-- Append one edge at the end of a path. -/
theorem PathTo.snoc {g : LayoutGraph} {s u v : String} {k : Nat}
    (hp : PathTo g s u k) (hv : v ∈ succs g u) : PathTo g s v (k + 1) := by
  induction hp with
  | zero w => exact PathTo.succ hv (PathTo.zero v)
  | succ hw hp2 ih => exact PathTo.succ hw (ih hv)

/-- Reachability from the start set handed to `_compute_node_rank`. -/
def ReachS (g : LayoutGraph) (starts : List String) (v : String) : Prop :=
  ∃ s ∈ starts, ∃ k, PathTo g s v k

theorem rankOf_bumpRank (m : RankMap) (v : String) (r : Nat) (x : String) :
    rankOf (bumpRank m v r) x = if x = v then max (rankOf m v) r else rankOf m x := by
  unfold rankOf bumpRank
  cases h : alGet m v with
  | none =>
      simp only [alGet_alSet]
      by_cases hx : x = v
      · simp [hx, h]
      · simp [hx]
  | some old =>
      simp only [alGet_alSet]
      by_cases hx : x = v
      · simp [hx, h]
      · simp [hx]

theorem rankOf_le_bumpRank (m : RankMap) (v : String) (r : Nat) (x : String) :
    rankOf m x ≤ rankOf (bumpRank m v r) x := by
  rw [rankOf_bumpRank]
  by_cases hx : x = v
  · rw [if_pos hx, hx]
    exact le_max_left _ _
  · rw [if_neg hx]

theorem rankOf_alSet_zero (m : RankMap) (s : String) (h : rankOf m s = 0) :
    ∀ x, rankOf (alSet m s 0) x = rankOf m x := by
  intro x
  unfold rankOf at h ⊢
  rw [alGet_alSet]
  by_cases hx : x = s
  · subst hx
    simp [h]
  · simp [hx]

/-- Ranks never decrease across the `for n in connected_nodes` loop. -/
theorem updateRankList_mono (visit : String → RankMap → Option RankMap)
    (hv : ∀ u m m', visit u m = some m' → ∀ x, rankOf m x ≤ rankOf m' x) :
    ∀ (vs : List String) (r : Nat) (m m' : RankMap),
      updateRankList visit vs r m = some m' → ∀ x, rankOf m x ≤ rankOf m' x := by
  intro vs
  induction vs with
  | nil =>
      intro r m m' h x
      simp only [updateRankList, Option.some.injEq] at h
      rw [h]
  | cons v vs ih =>
      intro r m m' h x
      simp only [updateRankList] at h
      cases hv1 : visit v (bumpRank m v r) with
      | none => rw [hv1] at h; simp at h
      | some m2 =>
          rw [hv1] at h
          calc rankOf m x ≤ rankOf (bumpRank m v r) x := rankOf_le_bumpRank m v r x
            _ ≤ rankOf m2 x := hv v _ m2 hv1 x
            _ ≤ rankOf m' x := ih r m2 m' h x

/-- Ranks never decrease across `_update_node_rank`. -/
theorem updateNodeRank_mono (g : LayoutGraph) :
    ∀ (fuel : Nat) (u : String) (m m' : RankMap),
      updateNodeRank g fuel u m = some m' → ∀ x, rankOf m x ≤ rankOf m' x := by
  intro fuel
  induction fuel with
  | zero => intro u m m' h; simp [updateNodeRank] at h
  | succ f ih =>
      intro u m m' h
      exact updateRankList_mono (updateNodeRank g f) ih (succs g u) (rankOf m u + 1) m m' h

/-- Loop-level termination and layer upper bound, parametric in the
recursive visit. -/
theorem updateRankList_term {lay : String → Nat}
    (visit : String → RankMap → Option RankMap) (C : String → Prop)
    (hv : ∀ u m, (∀ x, rankOf m x ≤ lay x) → C u →
      ∃ m', visit u m = some m' ∧ ∀ x, rankOf m' x ≤ lay x) :
    ∀ (vs : List String) (r : Nat) (m : RankMap),
      (∀ x, rankOf m x ≤ lay x) → (∀ v ∈ vs, r ≤ lay v ∧ C v) →
      ∃ m', updateRankList visit vs r m = some m' ∧ ∀ x, rankOf m' x ≤ lay x := by
  intro vs
  induction vs with
  | nil =>
      intro r m hb _
      exact ⟨m, rfl, hb⟩
  | cons v vs ih =>
      intro r m hb hvs
      obtain ⟨hrv, hCv⟩ := hvs v (List.mem_cons_self _ _)
      have hb1 : ∀ x, rankOf (bumpRank m v r) x ≤ lay x := by
        intro x
        rw [rankOf_bumpRank]
        by_cases hx : x = v
        · rw [if_pos hx, hx]
          exact max_le (hb v) hrv
        · rw [if_neg hx]
          exact hb x
      obtain ⟨m2, h2, hb2⟩ := hv v (bumpRank m v r) hb1 hCv
      obtain ⟨m', h', hb'⟩ := ih r m2 hb2 (fun w hw => hvs w (List.mem_cons_of_mem _ hw))
      refine ⟨m', ?_, hb'⟩
      simp only [updateRankList, h2]
      exact h'

/-- With every layer value at most `L`, fuel `L + 1 - lay u` suffices for
`_update_node_rank` from `u`, and the computed ranks stay below the
layering. -/
theorem updateNodeRank_term {g : LayoutGraph} {lay : String → Nat} {L : Nat}
    (hB : ∀ u v, v ∈ succs g u → lay u + 1 ≤ lay v) (hL : ∀ v, lay v ≤ L) :
    ∀ (fuel : Nat) (u : String) (m : RankMap),
      (∀ x, rankOf m x ≤ lay x) → L + 1 - lay u ≤ fuel →
      ∃ m', updateNodeRank g fuel u m = some m' ∧ ∀ x, rankOf m' x ≤ lay x := by
  intro fuel
  induction fuel with
  | zero =>
      intro u m hb hf
      have := hL u
      omega
  | succ f ih =>
      intro u m hb hf
      have hvs : ∀ v ∈ succs g u, (rankOf m u + 1 ≤ lay v) ∧ (L + 1 - lay v ≤ f) := by
        intro v hv
        have h1 := hB u v hv
        have h2 := hb u
        have h3 := hL v
        constructor <;> omega
      obtain ⟨m', h', hb'⟩ := updateRankList_term (updateNodeRank g f)
        (fun v => L + 1 - lay v ≤ f) (fun u m hbm hC => ih u m hbm hC)
        (succs g u) (rankOf m u + 1) m hb hvs
      exact ⟨m', h', hb'⟩

/-- Loop-level rank propagation: after the loop, every node on a path
from a loop member carries at least the loop's rank plus the distance. -/
theorem updateRankList_LB {g : LayoutGraph}
    (visit : String → RankMap → Option RankMap)
    (hvm : ∀ u m m', visit u m = some m' → ∀ x, rankOf m x ≤ rankOf m' x)
    (hvl : ∀ u m m', visit u m = some m' →
      ∀ v k, PathTo g u v k → rankOf m u + k ≤ rankOf m' v) :
    ∀ (vs : List String) (r : Nat) (m m' : RankMap),
      updateRankList visit vs r m = some m' →
      ∀ w ∈ vs, ∀ v k, PathTo g w v k → r + k ≤ rankOf m' v := by
  intro vs
  induction vs with
  | nil =>
      intro r m m' h w hw
      simp at hw
  | cons v0 vs ih =>
      intro r m m' h w hw v k hp
      simp only [updateRankList] at h
      cases hv1 : visit v0 (bumpRank m v0 r) with
      | none => rw [hv1] at h; simp at h
      | some m2 =>
          rw [hv1] at h
          rcases List.mem_cons.mp hw with hw0 | hwr
          · subst hw0
            have hbump : r ≤ rankOf (bumpRank m w r) w := by
              rw [rankOf_bumpRank, if_pos rfl]
              exact le_max_right _ _
            have h1 := hvl w _ m2 hv1 v k hp
            have h2 := updateRankList_mono visit hvm vs r m2 m' h v
            omega
          · exact ih r m2 m' h w hwr v k hp

/-- Rank propagation along any path explored by `_update_node_rank`: the
recursion walks every path, so a node `k` steps from `u` ends with rank
at least `u`'s entry rank plus `k`. -/
theorem updateNodeRank_LB (g : LayoutGraph) :
    ∀ (fuel : Nat) (u : String) (m m' : RankMap),
      updateNodeRank g fuel u m = some m' →
      ∀ v k, PathTo g u v k → rankOf m u + k ≤ rankOf m' v := by
  intro fuel
  induction fuel with
  | zero => intro u m m' h; simp [updateNodeRank] at h
  | succ f ih =>
      intro u m m' h v k hp
      cases hp with
      | zero => simpa using updateNodeRank_mono g (f + 1) u m m' h u
      | succ hw hp2 =>
          have h1 := updateRankList_LB (updateNodeRank g f) (updateNodeRank_mono g f) ih
            (succs g u) (rankOf m u + 1) m m' h _ hw v _ hp2
          omega

/-- The `for node in nodes:` fold of `_compute_node_rank`: it terminates
with fuel `L + 1`, keeps every rank at or below the layering, never
decreases a rank (the `nodes_rank[node] = 0` reset is harmless because a
start has layer 0, forcing its rank to stay 0), and achieves at least
the path distance from every processed start. -/
theorem computeNodeRank_fold {g : LayoutGraph} {lay : String → Nat} {L : Nat}
    (hB : ∀ u v, v ∈ succs g u → lay u + 1 ≤ lay v) (hL : ∀ v, lay v ≤ L) :
    ∀ (ss : List String) (m : RankMap),
      (∀ x, rankOf m x ≤ lay x) → (∀ s ∈ ss, lay s = 0) →
      ∃ m', ss.foldlM (fun m s => updateNodeRank g (L + 1) s (alSet m s 0)) m = some m'
        ∧ (∀ x, rankOf m' x ≤ lay x)
        ∧ (∀ x, rankOf m x ≤ rankOf m' x)
        ∧ (∀ s ∈ ss, ∀ v k, PathTo g s v k → k ≤ rankOf m' v) := by
  intro ss
  induction ss with
  | nil =>
      intro m hb _
      exact ⟨m, rfl, hb, fun x => le_refl _, fun s hs => absurd hs (List.not_mem_nil s)⟩
  | cons s ss ih =>
      intro m hb h0
      have hs0 : lay s = 0 := h0 s (List.mem_cons_self _ _)
      have hms : rankOf m s = 0 := Nat.le_zero.mp (hs0 ▸ hb s)
      have hr : ∀ x, rankOf (alSet m s 0) x = rankOf m x := rankOf_alSet_zero m s hms
      have hb1 : ∀ x, rankOf (alSet m s 0) x ≤ lay x := by
        intro x
        rw [hr]
        exact hb x
      obtain ⟨m2, h2, hb2⟩ := updateNodeRank_term hB hL (L + 1) s (alSet m s 0) hb1 (by omega)
      obtain ⟨m', h', hb', hmono', hLB'⟩ := ih m2 hb2
        (fun t ht => h0 t (List.mem_cons_of_mem _ ht))
      refine ⟨m', ?_, hb', ?_, ?_⟩
      · simp only [List.foldlM_cons, h2]
        exact h'
      · intro x
        calc rankOf m x = rankOf (alSet m s 0) x := (hr x).symm
          _ ≤ rankOf m2 x := updateNodeRank_mono g (L + 1) s _ m2 h2 x
          _ ≤ rankOf m' x := hmono' x
      · intro t ht v k hp
        rcases List.mem_cons.mp ht with h1 | h1
        · subst h1
          have hlb := updateNodeRank_LB g (L + 1) t (alSet m t 0) m2 h2 v k hp
          have h3 := hr t
          have h4 := hmono' v
          omega
        · exact hLB' t h1 v k hp

/-- Every reachable node is at the end of a path whose length is exactly
its layer value (descend through the tight predecessors of `hC`). -/
theorem reach_path_layer {g : LayoutGraph} {starts : List String} {lay : String → Nat}
    (hC : ∀ v, ReachS g starts v →
      (v ∈ starts ∧ lay v = 0)
      ∨ ∃ u, ReachS g starts u ∧ v ∈ succs g u ∧ lay v = lay u + 1) :
    ∀ (n : Nat) (v : String), lay v = n → ReachS g starts v →
      ∃ s ∈ starts, PathTo g s v (lay v) := by
  intro n
  induction n using Nat.strong_induction_on with
  | _ n ih =>
      intro v hn hv
      rcases hC v hv with ⟨hvs, h0⟩ | ⟨u, hu, hsucc, heq⟩
      · refine ⟨v, hvs, ?_⟩
        rw [h0]
        exact PathTo.zero v
      · have hlt : lay u < n := by omega
        obtain ⟨s, hs, hp⟩ := ih (lay u) hlt u rfl hu
        refine ⟨s, hs, ?_⟩
        rw [heq]
        exact hp.snoc hsucc

/-- The two-node cycle `A -> B -> A`. -/
def c8Cyc : LayoutGraph := ⟨[("A", "B"), ("B", "A")]⟩

theorem c8Cyc_no_fuel :
    ∀ (fuel : Nat) (u : String) (m : RankMap), (u = "A" ∨ u = "B") →
      updateNodeRank c8Cyc fuel u m = none := by
  intro fuel
  induction fuel with
  | zero => intro u m _; rfl
  | succ f ih =>
      intro u m hu
      rcases hu with h | h <;> subst h
      · show updateRankList (updateNodeRank c8Cyc f) (succs c8Cyc "A")
          (rankOf m "A" + 1) m = none
        have hs : succs c8Cyc "A" = ["B"] := by decide
        rw [hs]
        simp only [updateRankList]
        rw [ih "B" _ (Or.inr rfl)]
      · show updateRankList (updateNodeRank c8Cyc f) (succs c8Cyc "B")
          (rankOf m "B" + 1) m = none
        have hs : succs c8Cyc "B" = ["A"] := by decide
        rw [hs]
        simp only [updateRankList]
        rw [ih "A" _ (Or.inl rfl)]

theorem c8Cyc_compute_none : ∀ fuel, computeNodeRank c8Cyc ["A"] fuel = none := by
  intro fuel
  unfold computeNodeRank
  simp only [List.foldlM_cons, List.foldlM_nil]
  rw [c8Cyc_no_fuel fuel "A" _ (Or.inl rfl)]
  rfl

/-- C8: given a layering `lay` of the layout graph that is zero on the
start nodes, strictly increasing along every edge, bounded by `L`, and
tight (each reachable node is a start at layer 0 or has a reachable
predecessor one layer below) — i.e. `lay` is the longest-path layering —
`_compute_node_rank` with fuel `L + 1` terminates and assigns every
reachable node the rank `lay v`, the maximum over its predecessors of
(predecessor rank + 1) with starts at 0; and the algorithm has no cycle
guard: on the two-node cycle `A -> B -> A` it exhausts every fuel
(`none` for all fuel), i.e. the Python recursion does not terminate. -/
theorem rank_longest_path_layering (g : LayoutGraph) (starts : List String)
    (lay : String → Nat) (L : Nat)
    (hA : ∀ s ∈ starts, lay s = 0)
    (hB : ∀ u v, v ∈ succs g u → lay u + 1 ≤ lay v)
    (hL : ∀ v, lay v ≤ L)
    (hC : ∀ v, ReachS g starts v →
      (v ∈ starts ∧ lay v = 0)
      ∨ ∃ u, ReachS g starts u ∧ v ∈ succs g u ∧ lay v = lay u + 1) :
    (∃ m, computeNodeRank g starts (L + 1) = some m
       ∧ ∀ v, ReachS g starts v → rankOf m v = lay v)
    ∧ (∀ fuel, computeNodeRank c8Cyc ["A"] fuel = none) := by
  constructor
  · obtain ⟨m, hm, hb, hmono, hLB⟩ := computeNodeRank_fold hB hL starts []
      (fun x => by simp [rankOf, alGet]) hA
    refine ⟨m, hm, ?_⟩
    intro v hv
    have hub := hb v
    obtain ⟨s, hs, hp⟩ := reach_path_layer hC (lay v) v rfl hv
    have hlb := hLB s hs v (lay v) hp
    omega
  · exact c8Cyc_compute_none

/-- The witness DAG: the single edge `A -> B`. -/
def c8Dag : LayoutGraph := ⟨[("A", "B")]⟩

/-- Longest-path layering of `c8Dag` from start `A`. -/
def c8Layer : String → Nat := fun v => if v = "B" then 1 else 0

theorem c8Dag_succs (u : String) : succs c8Dag u = if "A" = u then ["B"] else [] := by
  unfold succs c8Dag
  by_cases h : "A" = u
  · simp [h]
  · simp [h]

theorem c8_hA : ∀ s ∈ ["A"], c8Layer s = 0 := by decide

theorem c8_hB : ∀ u v, v ∈ succs c8Dag u → c8Layer u + 1 ≤ c8Layer v := by
  intro u v hv
  rw [c8Dag_succs] at hv
  by_cases h : "A" = u
  · rw [if_pos h] at hv
    simp at hv
    subst hv
    rw [← h]
    decide
  · rw [if_neg h] at hv
    simp at hv

theorem c8_hL : ∀ v, c8Layer v ≤ 1 := by
  intro v
  unfold c8Layer
  by_cases h : v = "B" <;> simp [h]

theorem c8_pB : ∀ v k, PathTo c8Dag "B" v k → v = "B" ∧ k = 0 := by
  intro v k hp
  cases hp with
  | zero => exact ⟨rfl, rfl⟩
  | succ hw hp2 =>
      rw [c8Dag_succs, if_neg (by decide)] at hw
      exact absurd hw (List.not_mem_nil _)

theorem c8_pA : ∀ v k, PathTo c8Dag "A" v k → (v = "A" ∧ k = 0) ∨ (v = "B" ∧ k = 1) := by
  intro v k hp
  cases hp with
  | zero => exact Or.inl ⟨rfl, rfl⟩
  | succ hw hp2 =>
      rw [c8Dag_succs, if_pos rfl] at hw
      simp at hw
      subst hw
      obtain ⟨hv, hk⟩ := c8_pB _ _ hp2
      subst hv
      subst hk
      exact Or.inr ⟨rfl, rfl⟩

theorem c8_hC : ∀ v, ReachS c8Dag ["A"] v →
    (v ∈ ["A"] ∧ c8Layer v = 0)
    ∨ ∃ u, ReachS c8Dag ["A"] u ∧ v ∈ succs c8Dag u ∧ c8Layer v = c8Layer u + 1 := by
  intro v hv
  obtain ⟨s, hs, k, hp⟩ := hv
  have hsA : s = "A" := by simpa using hs
  subst hsA
  rcases c8_pA v k hp with ⟨hv0, _⟩ | ⟨hv1, _⟩
  · subst hv0
    exact Or.inl ⟨by simp, by decide⟩
  · subst hv1
    refine Or.inr ⟨"A", ⟨"A", by simp, 0, PathTo.zero "A"⟩, ?_, by decide⟩
    rw [c8Dag_succs, if_pos rfl]
    simp

theorem rank_longest_path_layering_witness :
    ((∀ s ∈ ["A"], c8Layer s = 0)
      ∧ (∀ u v, v ∈ succs c8Dag u → c8Layer u + 1 ≤ c8Layer v)
      ∧ (∀ v, c8Layer v ≤ 1)
      ∧ (∀ v, ReachS c8Dag ["A"] v →
          (v ∈ ["A"] ∧ c8Layer v = 0)
          ∨ ∃ u, ReachS c8Dag ["A"] u ∧ v ∈ succs c8Dag u ∧ c8Layer v = c8Layer u + 1))
    ∧ (∃ m, computeNodeRank c8Dag ["A"] (1 + 1) = some m
        ∧ ∀ v, ReachS c8Dag ["A"] v → rankOf m v = c8Layer v) :=
  ⟨⟨c8_hA, c8_hB, c8_hL, c8_hC⟩,
   (rank_longest_path_layering c8Dag ["A"] c8Layer 1 c8_hA c8_hB c8_hL c8_hC).1⟩

end NGQt
